import Mathlib

/-!
# go-plugin: descriptor model, store, validator chain and manager

A shallow embedding of `pkg/spec`, `pkg/plugin/store.go`, `pkg/plugin/validator.go`,
`pkg/plugin/loader.go` and `pkg/plugin/manager.go`.

Conventions.
* A Go pointer that may be nil is an `Option`; `none` is the nil pointer.
* A Go result pair `(value, error)` of a method of this repository is a Lean pair whose
  second component is `Option GoError`; `none` is the nil error.
* A Go map is a key-unique association list (`GoMap`).
* `sync.RWMutex` operations of a method that runs alone acquire and release a free lock and
  are omitted from the sequential definitions; the interleaving model of `Put` further down
  makes them explicit.
-/

set_option autoImplicit false

namespace GoPlugin

/-! ## Errors and descriptors (`pkg/spec`) -/

/-- A Go `error` value, identified by its message. -/
structure GoError where
  msg : String
deriving DecidableEq, Repr

/-- Type `spec.Source`: the loading mode of the plugin and its path. -/
structure Source where
  Mode : String
  Path : String
deriving DecidableEq, Repr

/-- Type `spec.HTTPServiceRoute`. -/
structure HTTPServiceRoute where
  Route : String
  Method : String
  Label : String
deriving DecidableEq, Repr

/-- Type `spec.HTTPServices`. -/
structure HTTPServices where
  Driver : String
  Routes : List HTTPServiceRoute
deriving DecidableEq, Repr

/-- Type `spec.Plugin`, the structure read from `plugin.json`. `Source` and `HTTPServices`
are pointers in the source. -/
structure Plugin where
  Name : String
  Version : String
  Description : String
  Home : String
  Maintainers : List String
  Source : Option Source
  HTTPServices : Option HTTPServices
deriving DecidableEq, Repr

/-- Type `spec.PluginExecutor`: a non-nil function value, identified by the symbol it was
resolved from. The nil function is `none : Option PluginExecutor`. -/
structure PluginExecutor where
  sym : Nat
deriving DecidableEq, Repr

/-- Type `spec.PluginItem`: a descriptor pointer paired with an executor. -/
structure PluginItem where
  Spec : Option Plugin
  Executor : Option PluginExecutor
deriving DecidableEq, Repr

/-! ## Go maps with string keys -/

/-- A Go `map[string]β`: association list in which every key occurs at most once (all the
operations below keep it so). -/
def GoMap (β : Type) : Type := List (String × β)

namespace GoMap

variable {β : Type}

instance [DecidableEq β] : DecidableEq (GoMap β) :=
  inferInstanceAs (DecidableEq (List (String × β)))

/-- The map returned by `make(map[string]β)`. -/
def empty : GoMap β := ([] : List (String × β))

/-- The two-result read `v, ok := m[k]`; `none` stands for `ok == false`. -/
def lookup : GoMap β → String → Option β
  | [], _ => none
  | (k', v) :: rest, k => if k' = k then some v else lookup rest k

/-- The assignment `m[k] = v`. -/
def assign : GoMap β → String → β → GoMap β
  | [], k, v => [(k, v)]
  | (k', v') :: rest, k, v =>
    if k' = k then (k, v) :: rest else (k', v') :: assign rest k v

/-- The statement `delete(m, k)`: no entry with key `k` remains. -/
def delete : GoMap β → String → GoMap β
  | [], _ => []
  | (k', v') :: rest, k => if k' = k then delete rest k else (k', v') :: delete rest k

/-- The builtin `len(m)`. -/
def len (m : GoMap β) : Nat := List.length m

/-- The keys of the map, in storage order. -/
def keys (m : GoMap β) : List String := List.map Prod.fst m

/-- The entries of the map, in storage order. -/
def entries (m : GoMap β) : List (String × β) := m

end GoMap

/-! ## The store (`pkg/plugin/store.go`) -/

/-- Type `BaseStore`: the `hash` field. Only `Put` writes to the map and it stores non-nil
item pointers only, so the values are items rather than optional items. -/
structure BaseStore where
  hash : GoMap PluginItem

instance : DecidableEq BaseStore := fun a b =>
  match a, b with
  | ⟨x⟩, ⟨y⟩ => if h : x = y then isTrue (by rw [h]) else isFalse (fun e => h (by cases e; rfl))

/-- Function `NewBaseStore`. -/
def NewBaseStore : BaseStore := ⟨GoMap.empty⟩

/-- Method `BaseStore.Size`. -/
def BaseStore.Size (bs : BaseStore) : Nat := bs.hash.len

/-- Method `BaseStore.Put`, run alone. -/
def BaseStore.Put (bs : BaseStore) (item : Option PluginItem) (forced : Bool) : BaseStore :=
  match item with
  | none => bs
  | some it =>
    match it.Spec, it.Executor with
    | some sp, some _ =>
      let name := sp.Name
      if name.length = 0 then bs
      else
        let ok := (bs.hash.lookup name).isSome
        if !ok || (ok && forced) then ⟨bs.hash.assign name it⟩ else bs
    | _, _ => bs

/-- Method `BaseStore.Get`: the item and the `ok` flag. -/
def BaseStore.Get (bs : BaseStore) (name : String) : Option PluginItem × Bool :=
  match bs.hash.lookup name with
  | some item => (some item, true)
  | none => (none, false)

/-- Method `BaseStore.Remove`: the removed item, the flag, and the store afterwards. -/
def BaseStore.Remove (bs : BaseStore) (name : String) :
    (Option PluginItem × Bool) × BaseStore :=
  match bs.hash.lookup name with
  | some item => ((some item, true), ⟨bs.hash.delete name⟩)
  | none => ((none, false), bs)

/-! ## Interface values and the host platform -/

/-- A Go `interface{}` value as the validators exchange them: the nil interface, a string, a
non-nil `*spec.Plugin`, or a value of any other dynamic type. No function of the repository
produces a nil pointer of type `*spec.Plugin` wrapped in an interface. -/
inductive Value where
  | nil
  | str (s : String)
  | plugin (p : Plugin)
  | other (tag : Nat)
deriving DecidableEq, Repr

/-- What `os.Stat` reports about a file: `Name()` and `Mode().IsDir()`. -/
structure FileInfo where
  Name : String
  IsDir : Bool
deriving DecidableEq, Repr

/-- A `plugin.Symbol`: a function of type `func(context.PluginContext) error`, or a value of
another type. -/
inductive Symbol where
  | func (f : PluginExecutor)
  | other (tag : Nat)
deriving DecidableEq, Repr

/-- The routines of the Go standard library, of `Masterminds/semver` and of the operating
system that the repository calls. They are parameters of the model. -/
structure Host where
  /-- Function `os.Stat`. -/
  Stat : String → Except GoError FileInfo
  /-- Function `ioutil.ReadFile`. -/
  ReadFile : String → Except GoError String
  /-- Function `ioutil.ReadDir`. -/
  ReadDir : String → Except GoError (List FileInfo)
  /-- Function `json.Unmarshal` into a fresh `spec.Plugin`. -/
  Unmarshal : String → Except GoError Plugin
  /-- The error result of `semver.NewVersion`. -/
  NewVersion : String → Option GoError
  /-- Function `filepath.Join` of two elements. -/
  Join : String → String → String
  /-- Function `filepath.IsAbs`. -/
  IsAbs : String → Bool
  /-- Function `filepath.Ext`. -/
  Ext : String → String
  /-- The text `fmt.Sprintf("%s", v)` of a value that is not a string. -/
  Format : Value → String
  /-- Function `plugin.Open`; the result identifies the opened module. -/
  Open : String → Except GoError Nat
  /-- Method `(*plugin.Plugin).Lookup`. -/
  Lookup : Nat → String → Except GoError Symbol

/-- Constant `pkg.PluginJSONFileName`. -/
def PluginJSONFileName : String := "plugin.json"

/-- Constant `pkg.PluginSourceModeLocal`. -/
def PluginSourceModeLocal : String := "local_so"

/-- Constant `pkg.PluginSourceModeRemote`. -/
def PluginSourceModeRemote : String := "remote_git"

/-- Function `pkg.FileExists`. -/
def FileExists (h : Host) (filePath : String) : Bool :=
  match h.Stat filePath with
  | .ok _ => true
  | .error _ => false

/-- Function `pkg.IsDir`. -/
def IsDir (h : Host) (filePath : String) : Bool :=
  match h.Stat filePath with
  | .ok fi => fi.IsDir
  | .error _ => false

/-- The call `fmt.Sprintf("%s", v)`. -/
def sprintS (h : Host) : Value → String
  | .str s => s
  | v => h.Format v

/-! ## Validators (`pkg/plugin/validator.go`) -/

/-- Interface `Validator`. An implementation may read and change the world `σ` it runs in. -/
structure Validator (σ : Type) where
  Validate : List Value → σ → (Value × Option GoError) × σ

/-- A validator that only reads the host. -/
def Validator.ofReader (f : Host → List Value → Value × Option GoError) : Validator Host :=
  ⟨fun params h => (f h params, h)⟩

/-- Method `JSONFileValidator.Validate`. -/
def JSONFileValidator.Validate (h : Host) (params : List Value) : Value × Option GoError :=
  match params with
  | [] => (Value.nil, some ⟨"The plugin dir path is required"⟩)
  | p0 :: _ =>
    let pluginDirPath := sprintS h p0
    if !FileExists h pluginDirPath then
      (Value.nil, some ⟨"File " ++ pluginDirPath ++ " is not existsing"⟩)
    else if !IsDir h pluginDirPath then
      (Value.nil, some ⟨"File " ++ pluginDirPath ++ " is not a dir"⟩)
    else
      let pluginJSONFile := h.Join pluginDirPath PluginJSONFileName
      if !FileExists h pluginJSONFile then
        (Value.nil, some ⟨PluginJSONFileName ++ " is not found under plugin dir " ++ pluginDirPath⟩)
      else
        match h.ReadFile pluginJSONFile with
        | .error err => (Value.nil, some err)
        | .ok data =>
          match h.Unmarshal data with
          | .error err => (Value.nil, some err)
          | .ok pluginSpec =>
            match h.Stat pluginDirPath with
            | .error err => (Value.nil, some err)
            | .ok fi =>
              if fi.Name ≠ pluginSpec.Name then
                (Value.nil, some ⟨"Name conflicts: expect " ++ fi.Name ++ " but got "
                  ++ pluginSpec.Name ++ " in the metadata json file"⟩)
              else (Value.plugin pluginSpec, none)

/-- Method `SpecValidator.Validate`. -/
def SpecValidator.Validate (h : Host) (params : List Value) : Value × Option GoError :=
  match params with
  | [] => (Value.nil, some ⟨"plugin json object is missing"⟩)
  | Value.plugin pluginSpec :: _ =>
    if pluginSpec.Name.length = 0 then (Value.nil, some ⟨"missing plugin name"⟩)
    else
      match h.NewVersion pluginSpec.Version with
      | some err => (Value.nil, some err)
      | none =>
        match pluginSpec.Source with
        | none => (Value.nil, some ⟨"plugin source missing"⟩)
        | some src =>
          if src.Mode ≠ PluginSourceModeLocal ∧ src.Mode ≠ PluginSourceModeRemote then
            (Value.nil, some ⟨"Only support mode [" ++ PluginSourceModeLocal ++ ", "
              ++ PluginSourceModeRemote ++ "]"⟩)
          else (Value.plugin pluginSpec, none)
  | _ :: _ => (Value.nil, some ⟨"invalid plugin spec object"⟩)

/-- Method `LocalSourceValidator.Validate`. The source overwrites `Source.Path` of the
descriptor it was given and returns the same pointer; here the updated descriptor is
returned. -/
def LocalSourceValidator.Validate (h : Host) (params : List Value) : Value × Option GoError :=
  match params with
  | p0 :: p1 :: _ =>
    match p0 with
    | Value.plugin pluginSpec =>
      match pluginSpec.Source with
      | none => (Value.nil, some ⟨"plugin source missing"⟩)
      | some src =>
        if src.Mode ≠ PluginSourceModeLocal then (Value.plugin pluginSpec, none)
        else
          let pluginBaseDir := sprintS h p1
          let pluginSoFilePath :=
            if h.IsAbs src.Path then src.Path else h.Join pluginBaseDir src.Path
          if !FileExists h pluginSoFilePath then
            (Value.nil, some ⟨"plugin so file " ++ pluginSoFilePath ++ " is not existing"⟩)
          else if h.Ext pluginSoFilePath ≠ ".so" then
            (Value.nil, some ⟨pluginSpec.Name ++ ".so file is missing"⟩)
          else
            (Value.plugin { pluginSpec with Source := some { src with Path := pluginSoFilePath } },
              none)
    | _ => (Value.nil, some ⟨"invalid plugin spec object"⟩)
  | _ => (Value.nil, some ⟨"plugin json object and plugin base dir are required"⟩)

/-- Method `RemoteSourceValidator.Validate`. -/
def RemoteSourceValidator.Validate (_h : Host) (_params : List Value) : Value × Option GoError :=
  (Value.nil, none)

/-- Type `BaseValidatorChain`. -/
structure BaseValidatorChain (σ : Type) where
  validators : List (Validator σ)

/-- The argument list the loop of `BaseValidatorChain.Validate` hands to the next validator:
`params` when `result == nil`, and `result` followed by `params` otherwise. -/
def BaseValidatorChain.stageArgs (result : Value) (params : List Value) : List Value :=
  if result = Value.nil then params else result :: params

/-- The `for` loop of `BaseValidatorChain.Validate` over the validators still to run, from
the current `result`. -/
def BaseValidatorChain.loop {σ : Type} (params : List Value) :
    List (Validator σ) → Value → σ → (Value × Option GoError) × σ
  | [], result, w => ((result, none), w)
  | vl :: rest, result, w =>
    match vl.Validate (BaseValidatorChain.stageArgs result params) w with
    | ((_, some err), w1) => ((Value.nil, some err), w1)
    | ((res, none), w1) => BaseValidatorChain.loop params rest res w1

/-- Method `BaseValidatorChain.Validate`. -/
def BaseValidatorChain.Validate {σ : Type} (bvc : BaseValidatorChain σ) (params : List Value)
    (w : σ) : (Value × Option GoError) × σ :=
  if bvc.validators.length = 0 then ((Value.nil, some ⟨"no validators"⟩), w)
  else if params.length = 0 then ((Value.nil, some ⟨"missing params"⟩), w)
  else BaseValidatorChain.loop params bvc.validators Value.nil w

/-- Function `NewBaseValidatorChain`. -/
def NewBaseValidatorChain {σ : Type} (validators : List (Validator σ)) : Validator σ :=
  ⟨fun params w => BaseValidatorChain.Validate ⟨validators⟩ params w⟩

/-- A validator wrapped so that every call appends its position and its arguments to a
record kept next to the world. It behaves on the world as the wrapped validator does. -/
def Validator.observed {σ : Type} (i : Nat) (v : Validator σ) :
    Validator (σ × List (Nat × List Value)) :=
  ⟨fun params st =>
    match v.Validate params st.1 with
    | (r, w1) => (r, (w1, st.2 ++ [(i, params)]))⟩

/-- The validators of a list wrapped by `Validator.observed`, numbered from `i`. -/
def observedFrom {σ : Type} : Nat → List (Validator σ) →
    List (Validator (σ × List (Nat × List Value)))
  | _, [] => []
  | i, v :: rest => v.observed i :: observedFrom (i + 1) rest


/-! ## The loader (`pkg/plugin/loader.go`) -/

/-- Interface `Loader`. `Load` answers `none` when the call does not return because of a
run-time panic; `BaseLoader.Load` dereferences `plugin.Source` without a nil check. -/
structure Loader (σ : Type) where
  Scan : String → σ → (List String × Option GoError) × σ
  Parse : String → σ → (Option Plugin × Option GoError) × σ
  Load : Option Plugin → σ → Option ((Option PluginExecutor × Option GoError) × σ)

/-- Method `BaseLoader.Scan`. -/
def BaseLoader.Scan (h : Host) (pluginBaseDir : String) : List String × Option GoError :=
  if pluginBaseDir.length = 0 then ([], some ⟨"plugin base dir path is empty"⟩)
  else if !FileExists h pluginBaseDir then
    ([], some ⟨"plugin base dir \x27" ++ pluginBaseDir ++ "\x27 is not existing"⟩)
  else
    match h.ReadDir pluginBaseDir with
    | .error err => ([], some err)
    | .ok files =>
      (files.filterMap (fun f => if f.IsDir then some (h.Join pluginBaseDir f.Name) else none),
        none)

/-- Method `BaseLoader.Parse`. -/
def BaseLoader.Parse (_h : Host) (_pluginPath : String) : Option Plugin × Option GoError :=
  (none, some ⟨"not implemented in BaseLoader, leverage the validator to get the plugin spec"⟩)

/-- Method `BaseLoader.Load`; `none` is the nil-pointer panic of `plugin.Source.Path` on a
descriptor without `Source`. -/
def BaseLoader.Load (h : Host) (plugin : Option Plugin) :
    Option (Option PluginExecutor × Option GoError) :=
  match plugin with
  | none => some (none, some ⟨"nil plugin spec"⟩)
  | some pl =>
    match pl.Source with
    | none => none
    | some src =>
      if !FileExists h src.Path then
        some (none, some ⟨"plugin so file \x27" ++ src.Path ++ "\x27 is not existsing"⟩)
      else
        match h.Open src.Path with
        | .error err => some (none, some err)
        | .ok p =>
          match h.Lookup p "Execute" with
          | .error err => some (none, some err)
          | .ok exec =>
            match exec with
            | Symbol.func pExec => some (some pExec, none)
            | Symbol.other _ =>
              some (none, some ⟨"failed to lookup entry function \x27Execute\x27 in plugin so file \x27"
                ++ src.Path ++ "\x27"⟩)

/-- Type `BaseLoader` as a `Loader` over the host. -/
def BaseLoader : Loader Host where
  Scan := fun pluginBaseDir h => (BaseLoader.Scan h pluginBaseDir, h)
  Parse := fun pluginPath h => (BaseLoader.Parse h pluginPath, h)
  Load := fun plugin h => (BaseLoader.Load h plugin).map (fun r => (r, h))

/-! ## The manager (`pkg/plugin/manager.go`) -/

/-- One line written through `log.Printf` or `log.Println` by the manager: the format used
and its arguments. -/
inductive LogEntry where
  | foundPlugin (p : String)
  | pluginLoadingError (err : GoError)
  | pluginsLoaded (n : Nat)
  | validateFailed (pluginPath : String)
  | validateSuccess (pluginPath : String)
  | convertFailed
  | loadFailed (name version : String)
  | loadSuccess (name version : String)
deriving DecidableEq, Repr

/-- The plugin path of a log line that reports the outcome of a validation. -/
def LogEntry.validated : LogEntry → Option String
  | .validateFailed p => some p
  | .validateSuccess p => some p
  | _ => none

/-- The plugin paths whose validation a log reports, in the order of the log. -/
def validatedPaths (log : List LogEntry) : List String :=
  log.filterMap LogEntry.validated

/-- Type `BaseManager`. The store is the `BaseStore` that `NewBaseManager` sets. -/
structure BaseManager (σ : Type) where
  basePluginBaseDir : String
  loader : Loader σ
  validtor : Validator σ
  store : BaseStore

/-- A manager together with the world its loader and validator act on and the lines written
to the standard logger so far. -/
structure Sys (σ : Type) where
  bm : BaseManager σ
  world : σ
  log : List LogEntry

/-- The state after a log line is written. -/
def Sys.printf {σ : Type} (s : Sys σ) (e : LogEntry) : Sys σ :=
  { s with log := s.log ++ [e] }

/-- The state after the world changes to `w`. -/
def Sys.setWorld {σ : Type} (s : Sys σ) (w : σ) : Sys σ :=
  { s with world := w }

/-- The state after the store changes to `st`. -/
def Sys.setStore {σ : Type} (s : Sys σ) (st : BaseStore) : Sys σ :=
  { s with bm := { s.bm with store := st } }

/-- Function `NewBaseManager`. -/
def NewBaseManager : BaseManager Host where
  basePluginBaseDir := ""
  loader := BaseLoader
  validtor := NewBaseValidatorChain
    [Validator.ofReader JSONFileValidator.Validate,
     Validator.ofReader SpecValidator.Validate,
     Validator.ofReader LocalSourceValidator.Validate]
  store := NewBaseStore

/-- Method `BaseManager.SetPluginBaseDir` of the manager wired by `NewBaseManager`. -/
def BaseManager.SetPluginBaseDir (s : Sys Host) (dir : String) : Option GoError × Sys Host :=
  if dir.length > 0 ∧ FileExists s.world dir = true then
    (none, { s with bm := { s.bm with basePluginBaseDir := dir } })
  else (some ⟨dir ++ " is not a valid plugin base dir path"⟩, s)

/-- Method `BaseManager.loadPlugin`. The answer is `none` when `Load` panics. -/
def BaseManager.loadPlugin {σ : Type} (s : Sys σ) (pluginPath : String) :
    Option (Option GoError × Sys σ) :=
  match s.bm.validtor.Validate [Value.str pluginPath] s.world with
  | ((_, some err), w1) => some (some err, (s.setWorld w1).printf (.validateFailed pluginPath))
  | ((validateRes, none), w1) =>
    let s1 := (s.setWorld w1).printf (.validateSuccess pluginPath)
    match validateRes with
    | Value.plugin pluginSpec =>
      match s1.bm.loader.Load (some pluginSpec) s1.world with
      | none => none
      | some ((_, some err), w2) =>
        some (some err,
          (s1.setWorld w2).printf (.loadFailed pluginSpec.Name pluginSpec.Version))
      | some ((exec, none), w2) =>
        let s2 := (s1.setWorld w2).printf (.loadSuccess pluginSpec.Name pluginSpec.Version)
        some (none, s2.setStore (s2.bm.store.Put (some ⟨some pluginSpec, exec⟩) true))
    | _ =>
      some (some ⟨"Failed to convert validation result to plugin spec"⟩,
        s1.printf .convertFailed)

/-- The `for` loop of `BaseManager.LoadPlugins` over the candidates still to load. -/
def BaseManager.loadEach {σ : Type} : List String → Sys σ → Option (Sys σ)
  | [], s => some s
  | p :: rest, s =>
    match BaseManager.loadPlugin (s.printf (.foundPlugin p)) p with
    | none => none
    | some (some err, s1) => BaseManager.loadEach rest (s1.printf (.pluginLoadingError err))
    | some (none, s1) => BaseManager.loadEach rest s1

/-- Method `BaseManager.LoadPlugins`. -/
def BaseManager.LoadPlugins {σ : Type} (s : Sys σ) : Option (Option GoError × Sys σ) :=
  match s.bm.loader.Scan s.bm.basePluginBaseDir s.world with
  | ((_, some err), w1) => some (some err, s.setWorld w1)
  | ((paths, none), w1) =>
    if paths.length = 0 then some (none, s.setWorld w1)
    else
      match BaseManager.loadEach paths (s.setWorld w1) with
      | none => none
      | some s1 => some (none, s1.printf (.pluginsLoaded s1.bm.store.Size))

/-- Method `BaseManager.LoadPlugin`; `Join` is `filepath.Join`. -/
def BaseManager.LoadPlugin {σ : Type} (Join : String → String → String) (s : Sys σ)
    (name : String) : Option (Option GoError × Sys σ) :=
  if name.length = 0 then some (some ⟨"plugin name cannot be empty"⟩, s)
  else
    let pluginPath := Join s.bm.basePluginBaseDir name
    BaseManager.loadPlugin s pluginPath

/-- Method `BaseManager.UnloadPlugin`. -/
def BaseManager.UnloadPlugin {σ : Type} (s : Sys σ) (name : String) : Option GoError × Sys σ :=
  if name.length = 0 then (some ⟨"plugin name cannot be empty"⟩, s)
  else
    match s.bm.store.Get name with
    | (_, false) => (some ⟨"plugin " ++ name ++ " is not loaded"⟩, s)
    | (_, true) =>
      match s.bm.store.Remove name with
      | ((_, false), st) => (some ⟨"failed to unload plugin " ++ name⟩, s.setStore st)
      | ((_, true), st) => (none, s.setStore st)

/-- Method `BaseManager.GetPlugin`: the descriptor, the executor and the error, and the state
afterwards. The answer is `none` when the call panics on a nil item reported as found. -/
def BaseManager.GetPlugin {σ : Type} (s : Sys σ) (name : String) :
    Option ((Option Plugin × Option PluginExecutor × Option GoError) × Sys σ) :=
  if name.length = 0 then some ((none, none, some ⟨"plugin name cannot be empty"⟩), s)
  else
    match s.bm.store.Get name with
    | (_, false) =>
      some ((none, none, some ⟨"plugin with name \x27" ++ name ++ "\x27 is not existing"⟩), s)
    | (some pluginItem, true) => some ((pluginItem.Spec, pluginItem.Executor, none), s)
    | (none, true) => none

/-! ## Interleaved executions of `BaseStore.Put`

Each goroutine runs `BaseStore.Put(item, forced)`. Its steps follow the statements of the
method: the checks on the item and the unlocked read `_, ok := bs.hash[name]` with the test
on `ok` and `forced`; `bs.lock.Lock()`, which waits while another goroutine holds the lock;
the write `bs.hash[name] = item`; and the deferred `bs.lock.Unlock()`. A schedule names the
goroutine that takes the next step. -/

/-- Where a goroutine stands in `BaseStore.Put`. -/
inductive PutPC where
  | entry
  | beforeLock
  | beforeWrite
  | beforeUnlock
  | returned
deriving DecidableEq, Repr

/-- A goroutine running `BaseStore.Put(item, forced)`. -/
structure PutCall where
  item : Option PluginItem
  forced : Bool
  pc : PutPC
deriving DecidableEq, Repr

/-- The store with its lock (the goroutine holding the exclusive lock, if any) and the
goroutines calling `Put` on it. -/
structure PutRun where
  hash : GoMap PluginItem
  lock : Option Nat
  calls : List PutCall
deriving DecidableEq

/-- The key `item.Spec.Name` of an item that passes the checks of `Put`. -/
def PutCall.key (c : PutCall) : Option String :=
  match c.item with
  | none => none
  | some it =>
    match it.Spec, it.Executor with
    | some sp, some _ => if sp.Name.length = 0 then none else some sp.Name
    | _, _ => none

/-- One step of goroutine `t`; `none` when it cannot move (it has returned, it waits for
the lock, or there is no such goroutine). -/
def PutRun.step (r : PutRun) (t : Nat) : Option PutRun :=
  match r.calls.get? t with
  | none => none
  | some c =>
    match c.pc with
    | .entry =>
      match c.key with
      | none => some { r with calls := r.calls.set t { c with pc := .returned } }
      | some name =>
        let ok := (r.hash.lookup name).isSome
        if !ok || (ok && c.forced) then
          some { r with calls := r.calls.set t { c with pc := .beforeLock } }
        else some { r with calls := r.calls.set t { c with pc := .returned } }
    | .beforeLock =>
      match r.lock with
      | some _ => none
      | none => some { r with lock := some t, calls := r.calls.set t { c with pc := .beforeWrite } }
    | .beforeWrite =>
      match c.key, c.item with
      | some name, some it =>
        some { r with hash := r.hash.assign name it,
                      calls := r.calls.set t { c with pc := .beforeUnlock } }
      | _, _ => none
    | .beforeUnlock =>
      some { r with lock := none, calls := r.calls.set t { c with pc := .returned } }
    | .returned => none

/-- The run along a schedule; `none` when the schedule asks a goroutine that cannot move. -/
def PutRun.exec : List Nat → PutRun → Option PutRun
  | [], r => some r
  | t :: rest, r =>
    match r.step t with
    | none => none
    | some r1 => PutRun.exec rest r1

/-- The goroutines `Put(item, forced)` of a list of calls, all at the entry of the method,
on a store with the given map and a free lock. -/
def PutRun.start (hash : GoMap PluginItem) (calls : List (Option PluginItem × Bool)) : PutRun :=
  { hash := hash, lock := none, calls := calls.map (fun c => ⟨c.1, c.2, .entry⟩) }

/-! ## The in-place effect of `LocalSourceValidator.Validate` -/

/-- Method `LocalSourceValidator.Validate` with its effect on its argument made explicit: the
result pair, and the descriptor that `params[0]` points to as it stands when the method
returns (`none` when `params[0]` is not a descriptor). The one write of the method is
`pluginSpec.Source.Path = pluginSoFilePath`, after all the checks. -/
def LocalSourceValidator.validateInPlace (h : Host) (params : List Value) :
    (Value × Option GoError) × Option Plugin :=
  match params with
  | p0 :: p1 :: _ =>
    match p0 with
    | Value.plugin pluginSpec =>
      match pluginSpec.Source with
      | none => ((Value.nil, some ⟨"plugin source missing"⟩), some pluginSpec)
      | some src =>
        if src.Mode ≠ PluginSourceModeLocal then
          ((Value.plugin pluginSpec, none), some pluginSpec)
        else
          let pluginBaseDir := sprintS h p1
          let pluginSoFilePath :=
            if h.IsAbs src.Path then src.Path else h.Join pluginBaseDir src.Path
          if !FileExists h pluginSoFilePath then
            ((Value.nil, some ⟨"plugin so file " ++ pluginSoFilePath ++ " is not existing"⟩),
              some pluginSpec)
          else if h.Ext pluginSoFilePath ≠ ".so" then
            ((Value.nil, some ⟨pluginSpec.Name ++ ".so file is missing"⟩), some pluginSpec)
          else
            ((Value.plugin
                { pluginSpec with Source := some { src with Path := pluginSoFilePath } }, none),
              some { pluginSpec with Source := some { src with Path := pluginSoFilePath } })
    | _ => ((Value.nil, some ⟨"invalid plugin spec object"⟩), none)
  | [Value.plugin pluginSpec] =>
    ((Value.nil, some ⟨"plugin json object and plugin base dir are required"⟩), some pluginSpec)
  | _ => ((Value.nil, some ⟨"plugin json object and plugin base dir are required"⟩), none)

/-! ## The plugin context (`pkg/context/plugin_context.go`) -/

/-- Function `unicode.IsSpace` of the Go standard library: the white space characters of
Latin-1 and the code points with the Unicode property White_Space. -/
def IsSpace (c : Char) : Bool :=
  c.toNat ∈ [0x09, 0x0A, 0x0B, 0x0C, 0x0D, 0x20, 0x85, 0xA0, 0x1680, 0x2028, 0x2029, 0x202F,
    0x205F, 0x3000] || (0x2000 ≤ c.toNat && c.toNat ≤ 0x200A)

/-- Function `strings.TrimSpace` of the Go standard library: the string without its leading
and trailing white space. -/
def TrimSpace (s : String) : String :=
  ⟨((s.data.dropWhile IsSpace).reverse.dropWhile IsSpace).reverse⟩

/-- Type `BasePluginContext`: the `valueMap` field. The `basedOnContext` field is set once by
`Background` and read by no method modelled here. -/
structure BasePluginContext where
  valueMap : GoMap Value
deriving DecidableEq

/-- Function `Background`. -/
def Background : BasePluginContext := ⟨GoMap.empty⟩

/-- Method `BasePluginContext.GetValue`; a key that is absent reads as the nil interface. -/
def BasePluginContext.GetValue (bpc : BasePluginContext) (key : String) : Value :=
  match bpc.valueMap.lookup key with
  | some v => v
  | none => Value.nil

/-- Method `BasePluginContext.SetValue`. -/
def BasePluginContext.SetValue (bpc : BasePluginContext) (key : String) (value : Value) :
    BasePluginContext :=
  if (TrimSpace key).length > 0 then ⟨bpc.valueMap.assign key value⟩ else bpc

/-! ## Sequences of calls on the store -/

/-- A call of `Put` or of `Remove` on a store. -/
inductive StoreCall where
  | Put (item : Option PluginItem) (forced : Bool)
  | Remove (name : String)
deriving DecidableEq, Repr

/-- The store after one call. -/
def BaseStore.call (bs : BaseStore) : StoreCall → BaseStore
  | .Put item forced => bs.Put item forced
  | .Remove name => (bs.Remove name).2

/-- The store after a sequence of calls, the first of the list first. -/
def BaseStore.calls (bs : BaseStore) : List StoreCall → BaseStore
  | [] => bs
  | c :: rest => BaseStore.calls (bs.call c) rest

/-- The property of one entry of the map of a store: a non-empty key, and an item with a
descriptor and an executor whose descriptor is named as the key. -/
def ValidEntry (e : String × PluginItem) : Prop :=
  e.1 ≠ "" ∧ ∃ sp ex, e.2.Spec = some sp ∧ e.2.Executor = some ex ∧ sp.Name = e.1

/-- The invariant of the map of a store: no key occurs twice and every entry is valid. -/
def StoreInv (m : GoMap PluginItem) : Prop :=
  (GoMap.keys m).Nodup ∧ ∀ e ∈ GoMap.entries m, ValidEntry e

/-! ## Observing the calls made by the manager -/

/-- The body of the `for` loop of `BaseManager.LoadPlugins` for one candidate `p`: the line
that reports the candidate, `loadPlugin(p)`, and the line that reports its error, if any. The
loop goes on to the next candidate whatever the error was. -/
def BaseManager.attempt {σ : Type} (s : Sys σ) (p : String) : Option (Sys σ) :=
  match BaseManager.loadPlugin (s.printf (.foundPlugin p)) p with
  | none => none
  | some (some err, s1) => some (s1.printf (.pluginLoadingError err))
  | some (none, s1) => some s1

/-- A loader set next to a record `ρ` that it neither reads nor changes. -/
def Loader.besideRecord {σ ρ : Type} (ld : Loader σ) : Loader (σ × ρ) where
  Scan := fun pluginBaseDir st =>
    ((ld.Scan pluginBaseDir st.1).1, ((ld.Scan pluginBaseDir st.1).2, st.2))
  Parse := fun pluginPath st =>
    ((ld.Parse pluginPath st.1).1, ((ld.Parse pluginPath st.1).2, st.2))
  Load := fun plugin st => (ld.Load plugin st.1).map (fun r => (r.1, (r.2, st.2)))

/-- The manager with its validator wrapped by `Validator.observed`, so that every call of
`Validate` is appended, with its arguments, to the record `calls` kept next to the world.
The loader, the store, the base directory and the log are those of `s`. -/
def Sys.observedWith {σ : Type} (s : Sys σ) (calls : List (Nat × List Value)) :
    Sys (σ × List (Nat × List Value)) where
  bm :=
    { basePluginBaseDir := s.bm.basePluginBaseDir
      loader := s.bm.loader.besideRecord
      validtor := s.bm.validtor.observed 0
      store := s.bm.store }
  world := (s.world, calls)
  log := s.log

/-- The manager with its validator observed, before any call. -/
def Sys.observed {σ : Type} (s : Sys σ) : Sys (σ × List (Nat × List Value)) :=
  s.observedWith []

/-- A manager whose loader returns from every call: `Scan`, `Parse` and `Load` are any three
functions of the world, and the validator is any validator. -/
def returningSys {σ : Type} (dir : String)
    (scan : String → σ → (List String × Option GoError) × σ)
    (parse : String → σ → (Option Plugin × Option GoError) × σ)
    (load : Option Plugin → σ → (Option PluginExecutor × Option GoError) × σ)
    (v : Validator σ) (st : BaseStore) (w : σ) (log : List LogEntry) : Sys σ where
  bm :=
    { basePluginBaseDir := dir
      loader := { Scan := scan, Parse := parse, Load := fun plugin w1 => some (load plugin w1) }
      validtor := v
      store := st }
  world := w
  log := log

/-! ## Sample data -/

/-- A descriptor named `sample`. -/
def samplePlugin : Plugin :=
  { Name := "sample", Version := "1.0.0", Description := "", Home := "", Maintainers := [],
    Source := some ⟨"local_so", "sample.so"⟩, HTTPServices := none }

/-- A later revision of the descriptor named `sample`. -/
def samplePlugin2 : Plugin := { samplePlugin with Version := "2.0.0" }

/-- A descriptor named `other`. -/
def otherPlugin : Plugin := { samplePlugin with Name := "other" }

/-- A descriptor with an empty name. -/
def namelessPlugin : Plugin := { samplePlugin with Name := "" }

/-- An item for `samplePlugin`. -/
def sampleItem : PluginItem := ⟨some samplePlugin, some ⟨1⟩⟩

/-- An item for `samplePlugin2`. -/
def sampleItem2 : PluginItem := ⟨some samplePlugin2, some ⟨2⟩⟩

/-- An item for `otherPlugin`. -/
def otherItem : PluginItem := ⟨some otherPlugin, some ⟨3⟩⟩

/-- A store holding `sampleItem` and `otherItem`. -/
def sampleStore : BaseStore := ⟨[("sample", sampleItem), ("other", otherItem)]⟩

/-- A host on which every path exists as a directory named `sample`, every file parses to
`samplePlugin`, and every module exports an `Execute` function. -/
def sampleHost : Host where
  Stat := fun _ => .ok ⟨"sample", true⟩
  ReadFile := fun _ => .ok "json"
  ReadDir := fun _ => .ok [⟨"sample", true⟩, ⟨"README", false⟩]
  Unmarshal := fun _ => .ok samplePlugin
  NewVersion := fun _ => none
  Join := fun a b => a ++ "/" ++ b
  IsAbs := fun p => p.front = '/'
  Ext := fun _ => ".so"
  Format := fun _ => ""
  Open := fun _ => .ok 0
  Lookup := fun _ _ => .ok (Symbol.func ⟨7⟩)

/-- The descriptor the default chain returns for `samplePlugin` found in `/plugins/sample`. -/
def loadedPlugin : Plugin :=
  { samplePlugin with Source := some ⟨"local_so", "/plugins/sample/sample.so"⟩ }

/-- Two goroutines call `Put(sampleItem, false)` and `Put(sampleItem2, false)` on an empty
store; both items have the name `sample`. -/
def raceStart : PutRun :=
  PutRun.start GoMap.empty [(some sampleItem, false), (some sampleItem2, false)]

/-- A host like `sampleHost` on which the metadata file and the directory have an empty
name. -/
def namelessHost : Host :=
  { sampleHost with Unmarshal := fun _ => .ok namelessPlugin, Stat := fun _ => .ok ⟨"", true⟩ }

/-- The manager of `NewBaseManager` with base directory `dir` and store `st`, on host `h`,
with `log` written so far. -/
def defaultSys (dir : String) (st : BaseStore) (h : Host) (log : List LogEntry) : Sys Host :=
  { bm := { NewBaseManager with basePluginBaseDir := dir, store := st }, world := h, log := log }


/-- The state of the default manager after `sampleStore` received the plugin loaded from
`/plugins/sample` on `sampleHost`. -/
def loadedSys : Sys Host :=
  defaultSys "/plugins"
    ⟨[("sample", ⟨some loadedPlugin, some ⟨7⟩⟩), ("other", otherItem)]⟩ sampleHost
    [.validateSuccess "/plugins/sample", .loadSuccess "sample" "1.0.0"]

/-- A descriptor in mode `remote_git`. -/
def remotePlugin : Plugin :=
  { samplePlugin with Source := some ⟨"remote_git", "github.com/acme/sample.git"⟩ }

/-- A host like `sampleHost` on which every metadata file parses to `remotePlugin`. -/
def remoteHost : Host :=
  { sampleHost with Unmarshal := fun _ => .ok remotePlugin }

/-- A descriptor whose mode is neither of the supported ones. -/
def dockerPlugin : Plugin :=
  { samplePlugin with Source := some ⟨"docker", "acme/sample:latest"⟩ }

/-- A host like `sampleHost` on which every path is a regular file named `README`. -/
def fileHost : Host :=
  { sampleHost with Stat := fun _ => .ok ⟨"README", false⟩ }

/-- A host like `sampleHost` on which every directory is named `renamed`. -/
def renamedHost : Host :=
  { sampleHost with Stat := fun _ => .ok ⟨"renamed", true⟩ }

/-- A host like `sampleHost` on which every file has the extension `.txt`. -/
def txtHost : Host :=
  { sampleHost with Ext := fun _ => ".txt" }

/-- A host like `sampleHost` whose directories list `broken` and `sample`, and on which
`/plugins/broken/plugin.json` does not exist. -/
def twoDirHost : Host :=
  { sampleHost with
    ReadDir := fun _ => .ok [⟨"broken", true⟩, ⟨"sample", true⟩]
    Stat := fun p =>
      if p = "/plugins/broken/plugin.json" then .error ⟨"no such file or directory"⟩
      else .ok ⟨"sample", true⟩ }

/-! ## Lemmas on maps -/

theorem String.length_zero_iff (s : String) : s.length = 0 ↔ s = "" := by
  constructor
  · intro h
    cases s with
    | mk d => cases d <;> simp_all [String.length]
  · rintro rfl
    rfl

namespace GoMap

variable {β : Type}

theorem lookup_assign_self (m : GoMap β) (k : String) (v : β) :
    lookup (assign m k v) k = some v := by
  induction m with
  | nil => simp [assign, lookup]
  | cons hd tl ih =>
    obtain ⟨k', v'⟩ := hd
    by_cases h : k' = k
    · simp [assign, lookup, h]
    · simp [assign, lookup, h, ih]

theorem lookup_assign_other (m : GoMap β) (k k2 : String) (v : β) (hne : k2 ≠ k) :
    lookup (assign m k v) k2 = lookup m k2 := by
  induction m with
  | nil => simp [assign, lookup, Ne.symm hne]
  | cons hd tl ih =>
    obtain ⟨k', v'⟩ := hd
    by_cases h : k' = k
    · subst h
      simp [assign, lookup, Ne.symm hne]
    · by_cases h2 : k' = k2
      · subst h2
        simp [assign, lookup, h]
      · simp [assign, lookup, h, h2, ih]

end GoMap


theorem BaseStore.Get_eq (bs : BaseStore) (k : String) :
    bs.Get k = (bs.hash.lookup k, (bs.hash.lookup k).isSome) := by
  unfold BaseStore.Get
  cases bs.hash.lookup k <;> rfl

theorem BaseStore.Put_valid (bs : BaseStore) (item : PluginItem) (sp : Plugin)
    (ex : PluginExecutor) (forced : Bool) (hSpec : item.Spec = some sp)
    (hExec : item.Executor = some ex) (hName : sp.Name ≠ "") :
    bs.Put (some item) forced =
      if (bs.hash.lookup sp.Name).isSome = false ∨ forced = true
      then ⟨bs.hash.assign sp.Name item⟩ else bs := by
  have hlen : ¬ sp.Name.length = 0 := fun h => hName ((String.length_zero_iff _).1 h)
  unfold BaseStore.Put
  simp only [hSpec, hExec, hlen, if_false]
  cases hl : (bs.hash.lookup sp.Name).isSome <;> cases forced <;> simp

theorem GoMap.lookup_delete_self {β : Type} (m : GoMap β) (k : String) :
    GoMap.lookup (GoMap.delete m k) k = none := by
  induction m with
  | nil => rfl
  | cons hd tl ih =>
    obtain ⟨k', v'⟩ := hd
    by_cases h : k' = k
    · simp [GoMap.delete, h, ih]
    · simp [GoMap.delete, GoMap.lookup, h, ih]

theorem GoMap.lookup_delete_other {β : Type} (m : GoMap β) (k k2 : String) (hne : k2 ≠ k) :
    GoMap.lookup (GoMap.delete m k) k2 = GoMap.lookup m k2 := by
  induction m with
  | nil => rfl
  | cons hd tl ih =>
    obtain ⟨k', v'⟩ := hd
    by_cases h : k' = k
    · subst h
      simp [GoMap.delete, GoMap.lookup, Ne.symm hne, ih]
    · by_cases h2 : k' = k2
      · subst h2
        simp [GoMap.delete, GoMap.lookup, h]
      · simp [GoMap.delete, GoMap.lookup, h, h2, ih]

theorem BaseStore.Get_after_Put (bs : BaseStore) (item : PluginItem) (sp : Plugin)
    (ex : PluginExecutor) (forced : Bool) (hSpec : item.Spec = some sp)
    (hExec : item.Executor = some ex) (hName : sp.Name ≠ "") :
    (bs.Put (some item) forced).Get sp.Name =
        (if (bs.Get sp.Name).2 = false ∨ forced = true then (some item, true)
         else bs.Get sp.Name)
      ∧ ∀ k : String, k ≠ sp.Name → (bs.Put (some item) forced).Get k = bs.Get k := by
  rw [BaseStore.Put_valid bs item sp ex forced hSpec hExec hName]
  simp only [BaseStore.Get_eq]
  by_cases hc : (bs.hash.lookup sp.Name).isSome = false ∨ forced = true
  · simp only [hc, if_true]
    refine ⟨?_, ?_⟩
    · simp [GoMap.lookup_assign_self]
    · intro k hk
      simp [GoMap.lookup_assign_other _ _ _ _ hk]
  · simp only [hc, if_false]
    exact ⟨trivial, fun _ _ => trivial⟩


/-! ## Lemmas on the validators -/

theorem JSONFileValidator.JSONFileValidator_success (h : Host) (params : List Value) (v : Value)
    (hok : JSONFileValidator.Validate h params = (v, none)) : ∃ d, v = Value.plugin d := by
  unfold JSONFileValidator.Validate at hok
  split at hok
  · simp at hok
  · simp only at hok
    repeat' split at hok
    all_goals first
      | (simp at hok; done)
      | (simp only [Prod.mk.injEq] at hok; exact ⟨_, hok.1.symm⟩)

theorem SpecValidator.SpecValidator_success (h : Host) (params : List Value) (v : Value)
    (hok : SpecValidator.Validate h params = (v, none)) :
    ∃ d rest src, params = Value.plugin d :: rest ∧ v = Value.plugin d ∧ d.Name ≠ ""
      ∧ d.Source = some src
      ∧ (src.Mode = PluginSourceModeLocal ∨ src.Mode = PluginSourceModeRemote) := by
  cases params with
  | nil => simp [SpecValidator.Validate] at hok
  | cons p0 rest =>
    cases p0 with
    | nil => simp [SpecValidator.Validate] at hok
    | str s => simp [SpecValidator.Validate] at hok
    | other t => simp [SpecValidator.Validate] at hok
    | plugin d =>
      simp only [SpecValidator.Validate] at hok
      by_cases hlen : d.Name.length = 0
      · simp [hlen] at hok
      · simp only [hlen, if_false] at hok
        cases hv : h.NewVersion d.Version with
        | some err => simp [hv] at hok
        | none =>
          simp only [hv] at hok
          cases hs : d.Source with
          | none => simp [hs] at hok
          | some src =>
            simp only [hs] at hok
            by_cases hm : src.Mode ≠ PluginSourceModeLocal ∧ src.Mode ≠ PluginSourceModeRemote
            · simp [hm] at hok
            · simp only [hm, if_false, Prod.mk.injEq, and_true] at hok
              refine ⟨d, rest, src, rfl, hok.symm, ?_, hs, ?_⟩
              · intro hn
                exact hlen ((String.length_zero_iff _).2 hn)
              · by_contra hcon
                exact hm ⟨fun a => hcon (Or.inl a), fun a => hcon (Or.inr a)⟩

theorem LocalSourceValidator.LocalSourceValidator_success (h : Host) (params : List Value) (v : Value)
    (hok : LocalSourceValidator.Validate h params = (v, none)) :
    ∃ d p1 rest src d1 src1, params = Value.plugin d :: p1 :: rest ∧ d.Source = some src
      ∧ v = Value.plugin d1 ∧ d1 = { d with Source := some src1 }
      ∧ src1.Mode = src.Mode := by
  cases params with
  | nil => simp [LocalSourceValidator.Validate] at hok
  | cons p0 tl =>
    cases tl with
    | nil => simp [LocalSourceValidator.Validate] at hok
    | cons p1 rest =>
      cases p0 with
      | nil => simp [LocalSourceValidator.Validate] at hok
      | str s => simp [LocalSourceValidator.Validate] at hok
      | other t => simp [LocalSourceValidator.Validate] at hok
      | plugin d =>
        simp only [LocalSourceValidator.Validate] at hok
        cases hs : d.Source with
        | none => simp [hs] at hok
        | some src =>
          simp only [hs] at hok
          by_cases hm : src.Mode ≠ PluginSourceModeLocal
          · rw [if_pos hm] at hok
            simp only [Prod.mk.injEq, and_true] at hok
            refine ⟨d, p1, rest, src, d, src, rfl, hs, hok.symm, ?_, rfl⟩
            cases d
            simp_all
          · rw [if_neg hm] at hok
            generalize (if h.IsAbs src.Path then src.Path
              else h.Join (sprintS h p1) src.Path) = soPath at hok
            by_cases hex : FileExists h soPath = true
            · by_cases hext : h.Ext soPath = ".so"
              · simp only [hex, hext, Bool.not_true, ne_eq, not_true_eq_false, if_false,
                  Bool.false_eq_true, Prod.mk.injEq, and_true] at hok
                exact ⟨d, p1, rest, src, _, _, rfl, hs, hok.symm, rfl, rfl⟩
              · simp [hex, hext] at hok
            · simp [hex] at hok

theorem LocalSourceValidator.result_eq_of_success (h : Host) (d : Plugin) (src : Source)
    (p1 : Value) (rest : List Value) (v : Value) (hsrc : d.Source = some src)
    (hok : LocalSourceValidator.Validate h (Value.plugin d :: p1 :: rest) = (v, none)) :
    (src.Mode ≠ PluginSourceModeLocal → v = Value.plugin d)
      ∧ (src.Mode = PluginSourceModeLocal →
          v = Value.plugin { d with Source := some { src with
                Path := if h.IsAbs src.Path then src.Path
                        else h.Join (sprintS h p1) src.Path } }
          ∧ FileExists h (if h.IsAbs src.Path then src.Path
                          else h.Join (sprintS h p1) src.Path) = true
          ∧ h.Ext (if h.IsAbs src.Path then src.Path
                   else h.Join (sprintS h p1) src.Path) = ".so") := by
  simp only [LocalSourceValidator.Validate, hsrc] at hok
  by_cases hm : src.Mode ≠ PluginSourceModeLocal
  · rw [if_pos hm] at hok
    simp only [Prod.mk.injEq, and_true] at hok
    exact ⟨fun _ => hok.symm, fun hl => absurd hl hm⟩
  · rw [if_neg hm] at hok
    refine ⟨fun hl => absurd hl hm, fun _ => ?_⟩
    generalize (if h.IsAbs src.Path then src.Path
      else h.Join (sprintS h p1) src.Path) = soPath at hok ⊢
    by_cases hex : FileExists h soPath = true
    · by_cases hext : h.Ext soPath = ".so"
      · simp only [hex, hext, Bool.not_true, ne_eq, not_true_eq_false, if_false,
          Bool.false_eq_true, Prod.mk.injEq, and_true] at hok
        exact ⟨hok.symm, hex, hext⟩
      · simp [hex, hext] at hok
    · simp [hex] at hok

/-! ## Lemmas on the chain -/

theorem BaseValidatorChain.loop_append_of_success {σ : Type} (params : List Value)
    (pre rest : List (Validator σ)) (r0 r : Value) (w w1 : σ)
    (hpre : BaseValidatorChain.loop params pre r0 w = ((r, none), w1)) :
    BaseValidatorChain.loop params (pre ++ rest) r0 w
      = BaseValidatorChain.loop params rest r w1 := by
  induction pre generalizing r0 w with
  | nil =>
    simp only [BaseValidatorChain.loop, Prod.mk.injEq, and_true] at hpre
    simp [hpre.1, hpre.2]
  | cons v vs ih =>
    simp only [List.cons_append, BaseValidatorChain.loop] at hpre ⊢
    rcases hv : v.Validate (BaseValidatorChain.stageArgs r0 params) w with ⟨⟨x, err⟩, w2⟩
    rw [hv] at hpre
    cases err with
    | some e => simp at hpre
    | none => exact ih x w2 hpre

theorem Validator.observed_validate {σ : Type} (v : Validator σ) (i : Nat)
    (ps : List Value) (w : σ) (lg : List (Nat × List Value)) :
    (v.observed i).Validate ps (w, lg)
      = ((v.Validate ps w).1, ((v.Validate ps w).2, lg ++ [(i, ps)])) := rfl

theorem BaseValidatorChain.loop_observed {σ : Type} (params : List Value)
    (vs : List (Validator σ)) (i : Nat) (r0 : Value) (w : σ) (lg : List (Nat × List Value)) :
    ∃ lg1, BaseValidatorChain.loop params (observedFrom i vs) r0 (w, lg)
        = ((BaseValidatorChain.loop params vs r0 w).1,
            ((BaseValidatorChain.loop params vs r0 w).2, lg ++ lg1))
      ∧ (∀ n ∈ lg1.map Prod.fst, i ≤ n ∧ n < i + vs.length)
      ∧ ((BaseValidatorChain.loop params vs r0 w).1.2 = none →
          lg1.map Prod.fst = List.range' i vs.length) := by
  induction vs generalizing i r0 w lg with
  | nil => exact ⟨[], by simp [observedFrom, BaseValidatorChain.loop], by simp, by simp⟩
  | cons v rest ih =>
    rcases hv : v.Validate (BaseValidatorChain.stageArgs r0 params) w with ⟨⟨x, err⟩, w2⟩
    cases err with
    | some e =>
      refine ⟨[(i, BaseValidatorChain.stageArgs r0 params)], ?_, ?_, ?_⟩
      · simp only [observedFrom, BaseValidatorChain.loop, Validator.observed_validate, hv]
      · intro n hn
        simp only [List.map_cons, List.map_nil, List.mem_singleton] at hn
        subst hn
        simp
      · simp [BaseValidatorChain.loop, hv]
    | none =>
      obtain ⟨lg1, h1, h2, h3⟩ :=
        ih (i + 1) x w2 (lg ++ [(i, BaseValidatorChain.stageArgs r0 params)])
      refine ⟨(i, BaseValidatorChain.stageArgs r0 params) :: lg1, ?_, ?_, ?_⟩
      · simp only [observedFrom, BaseValidatorChain.loop, Validator.observed_validate, hv, h1]
        simp
      · intro n hn
        simp only [List.map_cons, List.mem_cons] at hn
        rcases hn with rfl | hn
        · simp
        · have := h2 n hn
          simp only [List.length_cons]
          omega
      · intro hnone
        simp only [BaseValidatorChain.loop, hv] at hnone
        simp only [List.map_cons, List.length_cons, List.range'_succ, h3 hnone]

theorem observedFrom_append {σ : Type} (i : Nat) (pre rest : List (Validator σ)) :
    observedFrom i (pre ++ rest)
      = observedFrom i pre ++ observedFrom (i + pre.length) rest := by
  induction pre generalizing i with
  | nil => simp [observedFrom]
  | cons v vs ih =>
    have : i + 1 + vs.length = i + (vs.length + 1) := by omega
    rw [List.cons_append]
    simp only [observedFrom, List.cons_append, List.length_cons]
    rw [ih (i + 1), this]

theorem observedFrom_length {σ : Type} (i : Nat) (vs : List (Validator σ)) :
    (observedFrom i vs).length = vs.length := by
  induction vs generalizing i with
  | nil => rfl
  | cons v rest ih => simp [observedFrom, ih]

/-! ## Lemmas on the default wiring -/

theorem defaultChain_result (h : Host) (params : List Value) (v : Value) (h1 : Host)
    (hok : NewBaseManager.validtor.Validate params h = ((v, none), h1)) :
    ∃ d src, v = Value.plugin d ∧ d.Name ≠ "" ∧ d.Source = some src
      ∧ (src.Mode = PluginSourceModeLocal ∨ src.Mode = PluginSourceModeRemote) ∧ h1 = h := by
  simp only [NewBaseManager, NewBaseValidatorChain, BaseValidatorChain.Validate,
    List.length_cons, List.length_nil] at hok
  by_cases hp : params.length = 0
  · simp [hp] at hok
  · simp only [hp, if_false, Nat.reduceAdd, OfNat.ofNat_ne_zero] at hok
    simp only [BaseValidatorChain.loop, Validator.ofReader] at hok
    rcases hJ : JSONFileValidator.Validate h (BaseValidatorChain.stageArgs Value.nil params)
      with ⟨v1, e1⟩
    rw [hJ] at hok
    cases e1 with
    | some e => simp at hok
    | none =>
      obtain ⟨d1, rfl⟩ := JSONFileValidator.JSONFileValidator_success h _ v1 hJ
      simp only at hok
      rcases hS : SpecValidator.Validate h
        (BaseValidatorChain.stageArgs (Value.plugin d1) params) with ⟨v2, e2⟩
      rw [hS] at hok
      cases e2 with
      | some e => simp at hok
      | none =>
        obtain ⟨d2, rest2, src2, hargs, rfl, hname, hsrc, hmode⟩ :=
          SpecValidator.SpecValidator_success h _ v2 hS
        simp only at hok
        rcases hL : LocalSourceValidator.Validate h
          (BaseValidatorChain.stageArgs (Value.plugin d2) params) with ⟨v3, e3⟩
        rw [hL] at hok
        cases e3 with
        | some e => simp at hok
        | none =>
          obtain ⟨d, p1, rest, src, d3, src3, hargs3, hsrc3, rfl, hd3, hm3⟩ :=
            LocalSourceValidator.LocalSourceValidator_success h _ v3 hL
          simp only [Prod.mk.injEq, and_true] at hok
          have hd : d = d2 := by
            simp only [BaseValidatorChain.stageArgs] at hargs3
            simp at hargs3
            exact hargs3.1.symm
          subst hd
          have hs : src = src2 := by
            rw [hsrc3] at hsrc
            exact Option.some.inj hsrc
          subst hs
          refine ⟨d3, src3, hok.1.symm, ?_, ?_, ?_, hok.2.symm⟩
          · rw [hd3]
            exact hname
          · rw [hd3]
          · rw [hm3]
            exact hmode

theorem BaseLoader.Load_of_source (h : Host) (d : Plugin) (src : Source)
    (hsrc : d.Source = some src) : BaseLoader.Load h (some d) ≠ none := by
  simp only [BaseLoader.Load, hsrc]
  repeat' split
  all_goals simp

theorem BaseLoader.Load_executor (h : Host) (d : Plugin) (x : Option PluginExecutor)
    (hok : BaseLoader.Load h (some d) = some (x, none)) : ∃ f, x = some f := by
  simp only [BaseLoader.Load] at hok
  repeat' split at hok
  all_goals first
    | (simp at hok; done)
    | (simp only [Option.some.injEq, Prod.mk.injEq, and_true] at hok; exact ⟨_, hok.symm⟩)

theorem defaultChain_stages (h : Host) (p : String) (v : Value) (h1 : Host)
    (hok : NewBaseManager.validtor.Validate [Value.str p] h = ((v, none), h1)) :
    ∃ d0, JSONFileValidator.Validate h [Value.str p] = (Value.plugin d0, none)
      ∧ SpecValidator.Validate h [Value.plugin d0, Value.str p] = (Value.plugin d0, none)
      ∧ LocalSourceValidator.Validate h [Value.plugin d0, Value.str p] = (v, none)
      ∧ h1 = h := by
  simp only [NewBaseManager, NewBaseValidatorChain, BaseValidatorChain.Validate,
    List.length_cons, List.length_nil, Nat.reduceAdd, OfNat.ofNat_ne_zero, if_false,
    one_ne_zero, BaseValidatorChain.loop, Validator.ofReader] at hok
  have hargs0 : BaseValidatorChain.stageArgs Value.nil [Value.str p] = [Value.str p] := rfl
  rw [hargs0] at hok
  rcases hJ : JSONFileValidator.Validate h [Value.str p] with ⟨v1, e1⟩
  rw [hJ] at hok
  cases e1 with
  | some e => simp at hok
  | none =>
    obtain ⟨d1, rfl⟩ := JSONFileValidator.JSONFileValidator_success h _ v1 hJ
    have hargs1 : BaseValidatorChain.stageArgs (Value.plugin d1) [Value.str p]
        = [Value.plugin d1, Value.str p] := rfl
    simp only [hargs1] at hok
    rcases hS : SpecValidator.Validate h [Value.plugin d1, Value.str p] with ⟨v2, e2⟩
    rw [hS] at hok
    cases e2 with
    | some e => simp at hok
    | none =>
      obtain ⟨d2, rest2, src2, hargs, rfl, _, _, _⟩ :=
        SpecValidator.SpecValidator_success h _ v2 hS
      have hd : d2 = d1 := by
        simp only [List.cons.injEq, Value.plugin.injEq] at hargs
        exact hargs.1.symm
      subst hd
      simp only [hargs1] at hok
      rcases hL : LocalSourceValidator.Validate h [Value.plugin d2, Value.str p] with ⟨v3, e3⟩
      rw [hL] at hok
      cases e3 with
      | some e => simp at hok
      | none =>
        simp only [Prod.mk.injEq, and_true] at hok
        refine ⟨d2, rfl, hS, ?_, hok.2.symm⟩
        rw [← hok.1]
        exact hL

theorem sampleHost_join_abs (a q : String) (ha : sampleHost.IsAbs a = true) :
    sampleHost.IsAbs (sampleHost.Join a q) = true := by
  cases a with
  | mk l =>
    cases l with
    | nil => exact absurd ha (by decide)
    | cons c cs =>
      have h1 : (String.mk (c :: cs)).front = c := by
        simp [String.front, String.get, String.utf8GetAux]
      have h2 : (String.mk (c :: cs) ++ "/" ++ q).front = c := by
        cases q with
        | mk ql =>
          show (String.mk ((c :: cs) ++ "/".data ++ ql)).front = c
          simp [String.front, String.get, String.utf8GetAux]
      simp only [sampleHost] at ha ⊢
      rw [h1] at ha
      rw [h2]
      exact ha

theorem LocalSourceValidator.validateInPlace_fst (h : Host) (params : List Value) :
    (LocalSourceValidator.validateInPlace h params).1
      = LocalSourceValidator.Validate h params := by
  cases params with
  | nil => rfl
  | cons p0 tl =>
    cases tl with
    | nil => cases p0 <;> rfl
    | cons p1 rest =>
      cases p0 with
      | nil => rfl
      | str s => rfl
      | other t => rfl
      | plugin d =>
        simp only [LocalSourceValidator.validateInPlace, LocalSourceValidator.Validate]
        cases d.Source with
        | none => rfl
        | some src =>
          simp only
          split_ifs <;> rfl

theorem defaultChain_relative_dir_example :
    (NewBaseManager.validtor.Validate [Value.str "plugins/sample"] sampleHost).1
        = (Value.plugin
            { samplePlugin with Source := some ⟨"local_so", "plugins/sample/sample.so"⟩ }, none)
      ∧ sampleHost.IsAbs "plugins/sample/sample.so" = false := by
  decide

/-! ## Lemmas on the manager -/

theorem validatedPaths_append (a b : List LogEntry) :
    validatedPaths (a ++ b) = validatedPaths a ++ validatedPaths b := by
  simp [validatedPaths, List.filterMap_append]

theorem BaseManager.loadPlugin_returns {σ : Type} (s : Sys σ) (p : String)
    (hLoad : ∀ params w d w1, s.bm.validtor.Validate params w = ((Value.plugin d, none), w1) →
      s.bm.loader.Load (some d) w1 ≠ none) :
    ∃ r s1, BaseManager.loadPlugin s p = some (r, s1)
      ∧ s1.bm.loader = s.bm.loader ∧ s1.bm.validtor = s.bm.validtor
      ∧ validatedPaths s1.log = validatedPaths s.log ++ [p] := by
  unfold BaseManager.loadPlugin
  rcases hv : s.bm.validtor.Validate [Value.str p] s.world with ⟨⟨res, err⟩, w1⟩
  cases err with
  | some e =>
    exact ⟨_, _, rfl, rfl, rfl, by
      simp [Sys.printf, Sys.setWorld, validatedPaths_append, validatedPaths,
        LogEntry.validated]⟩
  | none =>
    cases res with
    | nil =>
      exact ⟨_, _, rfl, rfl, rfl, by
        simp [Sys.printf, Sys.setWorld, validatedPaths_append, validatedPaths,
          LogEntry.validated]⟩
    | str t =>
      exact ⟨_, _, rfl, rfl, rfl, by
        simp [Sys.printf, Sys.setWorld, validatedPaths_append, validatedPaths,
          LogEntry.validated]⟩
    | other t =>
      exact ⟨_, _, rfl, rfl, rfl, by
        simp [Sys.printf, Sys.setWorld, validatedPaths_append, validatedPaths,
          LogEntry.validated]⟩
    | plugin d =>
      have hne := hLoad _ _ d w1 hv
      simp only [Sys.printf, Sys.setWorld]
      rcases hl : s.bm.loader.Load (some d) w1 with _ | ⟨⟨x, err2⟩, w2⟩
      · exact absurd hl hne
      · cases err2 with
        | some e =>
          exact ⟨_, _, rfl, rfl, rfl, by
            simp [validatedPaths_append, validatedPaths, LogEntry.validated]⟩
        | none =>
          exact ⟨_, _, rfl, rfl, rfl, by
            simp [Sys.setStore, validatedPaths_append, validatedPaths, LogEntry.validated]⟩

theorem BaseManager.loadEach_returns {σ : Type} (paths : List String) (s : Sys σ)
    (hLoad : ∀ params w d w1, s.bm.validtor.Validate params w = ((Value.plugin d, none), w1) →
      s.bm.loader.Load (some d) w1 ≠ none) :
    ∃ s1, BaseManager.loadEach paths s = some s1
      ∧ validatedPaths s1.log = validatedPaths s.log ++ paths := by
  induction paths generalizing s with
  | nil => exact ⟨s, rfl, by simp⟩
  | cons p rest ih =>
    obtain ⟨r, s1, h1, hl, hv, hlog⟩ :=
      BaseManager.loadPlugin_returns (s.printf (.foundPlugin p)) p hLoad
    have hlog1 : validatedPaths s1.log = validatedPaths s.log ++ [p] := by
      rw [hlog]
      simp [Sys.printf, validatedPaths_append, validatedPaths, LogEntry.validated]
    have hLoad1 : ∀ (s2 : Sys σ), s2.bm.loader = s1.bm.loader →
        s2.bm.validtor = s1.bm.validtor →
        ∀ params w d w1, s2.bm.validtor.Validate params w = ((Value.plugin d, none), w1) →
          s2.bm.loader.Load (some d) w1 ≠ none := by
      intro s2 e1 e2 params w d w1 hh
      rw [e1, hl]
      rw [e2, hv] at hh
      exact hLoad params w d w1 hh
    simp only [BaseManager.loadEach, h1]
    cases r with
    | some e =>
      obtain ⟨s3, h3, hlog3⟩ := ih (s1.printf (.pluginLoadingError e)) (hLoad1 _ rfl rfl)
      refine ⟨s3, h3, ?_⟩
      have hpr : validatedPaths (s1.printf (.pluginLoadingError e)).log
          = validatedPaths s1.log := by
        simp [Sys.printf, validatedPaths, LogEntry.validated]
      rw [hlog3, hpr, hlog1]
      simp
    | none =>
      obtain ⟨s3, h3, hlog3⟩ := ih s1 (hLoad1 _ rfl rfl)
      refine ⟨s3, h3, ?_⟩
      rw [hlog3, hlog1]
      simp

theorem defaultSys_load_returns (dir : String) (st : BaseStore) (h : Host)
    (log : List LogEntry) :
    ∀ params w d w1,
      (defaultSys dir st h log).bm.validtor.Validate params w = ((Value.plugin d, none), w1) →
      (defaultSys dir st h log).bm.loader.Load (some d) w1 ≠ none := by
  intro params w d w1 hok
  obtain ⟨d1, src, hd, _, hsrc, _, _⟩ := defaultChain_result w params _ w1 hok
  have hd1 : d1 = d := by
    injection hd with hd
    exact hd.symm
  subst hd1
  have := BaseLoader.Load_of_source w1 d1 src hsrc
  simp only [defaultSys, NewBaseManager, BaseLoader, ne_eq, Option.map_eq_none']
  exact this

theorem BaseManager.loadPlugin_success {σ : Type} (s s1 : Sys σ) (p : String)
    (hret : BaseManager.loadPlugin s p = some (none, s1)) :
    ∃ d x w1 w2, s.bm.validtor.Validate [Value.str p] s.world = ((Value.plugin d, none), w1)
      ∧ s.bm.loader.Load (some d) w1 = some ((x, none), w2)
      ∧ s1.bm.store = s.bm.store.Put (some ⟨some d, x⟩) true
      ∧ s1.world = w2 := by
  unfold BaseManager.loadPlugin at hret
  rcases hv : s.bm.validtor.Validate [Value.str p] s.world with ⟨⟨res, err⟩, w1⟩
  rw [hv] at hret
  cases err with
  | some e => simp at hret
  | none =>
    cases res with
    | nil => simp at hret
    | str t => simp at hret
    | other t => simp at hret
    | plugin d =>
      simp only [Sys.printf, Sys.setWorld] at hret
      rcases hl : s.bm.loader.Load (some d) w1 with _ | ⟨⟨x, err2⟩, w2⟩
      · rw [hl] at hret
        simp at hret
      · rw [hl] at hret
        cases err2 with
        | some e => simp at hret
        | none =>
          simp only [Option.some.injEq, Prod.mk.injEq, true_and] at hret
          subst hret
          exact ⟨d, x, w1, w2, rfl, hl, rfl, rfl⟩

/-! ## Lemmas on the observed manager -/

theorem Sys.observedWith_printf {σ : Type} (s : Sys σ) (calls : List (Nat × List Value))
    (e : LogEntry) : (s.observedWith calls).printf e = (s.printf e).observedWith calls := rfl

theorem BaseManager.loadPlugin_observedWith {σ : Type} (s : Sys σ)
    (calls : List (Nat × List Value)) (p : String) :
    BaseManager.loadPlugin (s.observedWith calls) p
      = (BaseManager.loadPlugin s p).map
          (fun x => (x.1, x.2.observedWith (calls ++ [(0, [Value.str p])]))) := by
  have hval : (s.observedWith calls).bm.validtor.Validate [Value.str p]
      (s.observedWith calls).world
        = ((s.bm.validtor.Validate [Value.str p] s.world).1,
            ((s.bm.validtor.Validate [Value.str p] s.world).2,
              calls ++ [(0, [Value.str p])])) := rfl
  unfold BaseManager.loadPlugin
  rw [hval]
  rcases hv : s.bm.validtor.Validate [Value.str p] s.world with ⟨⟨res, err⟩, w1⟩
  cases err with
  | some e => rfl
  | none =>
    cases res with
    | nil => rfl
    | str t => rfl
    | other t => rfl
    | plugin d =>
      have hload : ∀ (cs : List (Nat × List Value)),
          (s.observedWith calls).bm.loader.Load (some d) (w1, cs)
            = (s.bm.loader.Load (some d) w1).map (fun r => (r.1, (r.2, cs))) := fun _ => rfl
      simp only [Sys.printf, Sys.setWorld, hload]
      rcases hl : s.bm.loader.Load (some d) w1 with _ | ⟨⟨x, err2⟩, w2⟩
      · rfl
      · cases err2 with
        | some e => rfl
        | none => rfl

theorem BaseManager.attempt_observedWith {σ : Type} (s : Sys σ)
    (calls : List (Nat × List Value)) (p : String) :
    BaseManager.attempt (s.observedWith calls) p
      = (BaseManager.attempt s p).map
          (fun s1 => s1.observedWith (calls ++ [(0, [Value.str p])])) := by
  unfold BaseManager.attempt
  rw [Sys.observedWith_printf, BaseManager.loadPlugin_observedWith]
  rcases hl : BaseManager.loadPlugin (s.printf (.foundPlugin p)) p with _ | ⟨err, s1⟩
  · rfl
  · cases err with
    | some e => rfl
    | none => rfl

theorem BaseManager.loadEach_eq_foldlM {σ : Type} (paths : List String) (s : Sys σ) :
    BaseManager.loadEach paths s = List.foldlM BaseManager.attempt s paths := by
  induction paths generalizing s with
  | nil => rfl
  | cons p rest ih =>
    simp only [BaseManager.loadEach, List.foldlM_cons, BaseManager.attempt]
    rcases hl : BaseManager.loadPlugin (s.printf (.foundPlugin p)) p with _ | ⟨err, s1⟩
    · rfl
    · cases err with
      | some e => simpa using ih _
      | none => simpa using ih _

theorem BaseManager.loadEach_observedWith {σ : Type} (paths : List String) (s : Sys σ)
    (calls : List (Nat × List Value)) :
    BaseManager.loadEach paths (s.observedWith calls)
      = (BaseManager.loadEach paths s).map
          (fun s1 => s1.observedWith (calls ++ paths.map (fun p => (0, [Value.str p])))) := by
  induction paths generalizing s calls with
  | nil => simp [BaseManager.loadEach]
  | cons p rest ih =>
    have hstep : ∀ (t : Sys σ) (cs : List (Nat × List Value)),
        BaseManager.loadEach (p :: rest) t
          = (BaseManager.attempt t p).bind (BaseManager.loadEach rest) := by
      intro t cs
      simp only [BaseManager.loadEach, BaseManager.attempt]
      rcases BaseManager.loadPlugin (t.printf (.foundPlugin p)) p with _ | ⟨err, t1⟩
      · rfl
      · cases err <;> rfl
    have hstepO : BaseManager.loadEach (p :: rest) (s.observedWith calls)
          = (BaseManager.attempt (s.observedWith calls) p).bind (BaseManager.loadEach rest) := by
      simp only [BaseManager.loadEach, BaseManager.attempt]
      rcases BaseManager.loadPlugin ((s.observedWith calls).printf (.foundPlugin p)) p
        with _ | ⟨err, t1⟩
      · rfl
      · cases err <;> rfl
    rw [hstepO, hstep s calls, BaseManager.attempt_observedWith]
    rcases BaseManager.attempt s p with _ | s1
    · rfl
    · simp only [Option.map_some', Option.some_bind, ih, List.map_cons, List.append_assoc,
        List.singleton_append]

theorem BaseManager.LoadPlugins_observedWith {σ : Type} (s : Sys σ)
    (calls : List (Nat × List Value)) :
    BaseManager.LoadPlugins (s.observedWith calls)
      = (BaseManager.LoadPlugins s).map
          (fun x => (x.1, x.2.observedWith (calls ++
            (match (s.bm.loader.Scan s.bm.basePluginBaseDir s.world).1.2 with
             | some _ => []
             | none => (s.bm.loader.Scan s.bm.basePluginBaseDir s.world).1.1.map
                 (fun p => (0, [Value.str p])))))) := by
  have hscan : (s.observedWith calls).bm.loader.Scan (s.observedWith calls).bm.basePluginBaseDir
      (s.observedWith calls).world
        = ((s.bm.loader.Scan s.bm.basePluginBaseDir s.world).1,
            ((s.bm.loader.Scan s.bm.basePluginBaseDir s.world).2, calls)) := rfl
  unfold BaseManager.LoadPlugins
  rw [hscan]
  rcases hs : s.bm.loader.Scan s.bm.basePluginBaseDir s.world with ⟨⟨paths, err⟩, w1⟩
  cases err with
  | some e =>
    simp only [Option.map_some', List.append_nil]
    rfl
  | none =>
    by_cases hp : paths.length = 0
    · have : paths = [] := List.length_eq_zero.1 hp
      subst this
      simp only [List.length_nil, if_true, Option.map_some', List.map_nil, List.append_nil]
      rfl
    · simp only [hp, if_false]
      have hw : (s.observedWith calls).setWorld (w1, calls) = (s.setWorld w1).observedWith calls :=
        rfl
      rw [hw, BaseManager.loadEach_observedWith]
      rcases BaseManager.loadEach paths (s.setWorld w1) with _ | s1
      · rfl
      · rfl

theorem BaseManager.LoadPlugins_spec {σ : Type} (s : Sys σ)
    (hLoad : ∀ params w d w1, s.bm.validtor.Validate params w = ((Value.plugin d, none), w1) →
      s.bm.loader.Load (some d) w1 ≠ none) :
    ∃ s1, BaseManager.LoadPlugins s
          = some ((s.bm.loader.Scan s.bm.basePluginBaseDir s.world).1.2, s1)
      ∧ ((s.bm.loader.Scan s.bm.basePluginBaseDir s.world).1.2 ≠ none →
          s1 = s.setWorld (s.bm.loader.Scan s.bm.basePluginBaseDir s.world).2
          ∧ BaseManager.LoadPlugins s.observed
              = some ((s.bm.loader.Scan s.bm.basePluginBaseDir s.world).1.2,
                  s1.observedWith []))
      ∧ ((s.bm.loader.Scan s.bm.basePluginBaseDir s.world).1.2 = none →
          ∃ s0, List.foldlM BaseManager.attempt
                  (s.setWorld (s.bm.loader.Scan s.bm.basePluginBaseDir s.world).2)
                  (s.bm.loader.Scan s.bm.basePluginBaseDir s.world).1.1 = some s0
            ∧ s1 = (if (s.bm.loader.Scan s.bm.basePluginBaseDir s.world).1.1.length = 0 then s0
                    else s0.printf (.pluginsLoaded s0.bm.store.Size))
            ∧ validatedPaths s1.log
                = validatedPaths s.log ++ (s.bm.loader.Scan s.bm.basePluginBaseDir s.world).1.1
            ∧ BaseManager.LoadPlugins s.observed
                = some (none, s1.observedWith
                    ((s.bm.loader.Scan s.bm.basePluginBaseDir s.world).1.1.map
                      (fun p => (0, [Value.str p]))))) := by
  have hobs := BaseManager.LoadPlugins_observedWith s []
  have hplain : ∃ s1, BaseManager.LoadPlugins s
        = some ((s.bm.loader.Scan s.bm.basePluginBaseDir s.world).1.2, s1)
      ∧ ((s.bm.loader.Scan s.bm.basePluginBaseDir s.world).1.2 ≠ none →
          s1 = s.setWorld (s.bm.loader.Scan s.bm.basePluginBaseDir s.world).2)
      ∧ ((s.bm.loader.Scan s.bm.basePluginBaseDir s.world).1.2 = none →
          ∃ s0, List.foldlM BaseManager.attempt
                  (s.setWorld (s.bm.loader.Scan s.bm.basePluginBaseDir s.world).2)
                  (s.bm.loader.Scan s.bm.basePluginBaseDir s.world).1.1 = some s0
            ∧ s1 = (if (s.bm.loader.Scan s.bm.basePluginBaseDir s.world).1.1.length = 0 then s0
                    else s0.printf (.pluginsLoaded s0.bm.store.Size))
            ∧ validatedPaths s1.log
                = validatedPaths s.log
                    ++ (s.bm.loader.Scan s.bm.basePluginBaseDir s.world).1.1) := by
    unfold BaseManager.LoadPlugins
    rcases hs : s.bm.loader.Scan s.bm.basePluginBaseDir s.world with ⟨⟨paths, err⟩, w1⟩
    cases err with
    | some e => exact ⟨_, rfl, fun _ => rfl, fun h => by simp at h⟩
    | none =>
      by_cases hp : paths.length = 0
      · have : paths = [] := List.length_eq_zero.1 hp
        subst this
        refine ⟨_, rfl, fun h => absurd rfl h, fun _ => ⟨s.setWorld w1, rfl, ?_, ?_⟩⟩
        · simp
        · simp [Sys.setWorld]
      · simp only [hp, if_false]
        obtain ⟨s0, h1, hlog⟩ := BaseManager.loadEach_returns paths (s.setWorld w1) hLoad
        simp only [h1]
        refine ⟨_, rfl, fun h => absurd rfl h, fun _ => ⟨s0, ?_, rfl, ?_⟩⟩
        · rw [← BaseManager.loadEach_eq_foldlM]
          exact h1
        · simp only [Sys.printf, validatedPaths_append, hlog, Sys.setWorld]
          simp [validatedPaths, LogEntry.validated]
  obtain ⟨s1, h1, h2, h3⟩ := hplain
  refine ⟨s1, h1, ?_, ?_⟩
  · intro hne
    refine ⟨h2 hne, ?_⟩
    rw [Sys.observed, hobs, h1]
    rcases he : (s.bm.loader.Scan s.bm.basePluginBaseDir s.world).1.2 with _ | e
    · exact absurd he hne
    · rfl
  · intro hnone
    obtain ⟨s0, ha, hb, hc⟩ := h3 hnone
    refine ⟨s0, ha, hb, hc, ?_⟩
    rw [Sys.observed, hobs, h1]
    simp only [Option.map_some', hnone, List.nil_append]

/-! ## Lemmas on the plugin context -/

theorem exists_not_in_dropWhile (p : Char → Bool) (l : List Char) :
    (∃ x ∈ l.dropWhile p, p x = false) ↔ ∃ x ∈ l, p x = false := by
  induction l with
  | nil => simp
  | cons a t ih =>
    cases ha : p a
    · simp [List.dropWhile_cons, ha]
    · simp only [List.dropWhile_cons, ha, if_true, ih, List.mem_cons, exists_eq_or_imp,
        Bool.true_eq_false, false_or]

theorem TrimSpace_length_pos_iff (k : String) :
    (TrimSpace k).length > 0 ↔ ∃ c ∈ k.data, IsSpace c = false := by
  have h1 : (TrimSpace k).length > 0 ↔
      ((k.data.dropWhile IsSpace).reverse.dropWhile IsSpace) ≠ [] := by
    simp only [TrimSpace, String.length, List.length_reverse, gt_iff_lt, ne_eq]
    exact List.length_pos
  rw [h1, ne_eq, List.dropWhile_eq_nil_iff]
  simp only [List.mem_reverse, not_forall, Bool.not_eq_true, exists_prop]
  exact exists_not_in_dropWhile IsSpace k.data

/-! ## Lemmas on the store invariant -/

theorem GoMap.mem_of_lookup {β : Type} (m : GoMap β) (k : String) (v : β)
    (hl : GoMap.lookup m k = some v) : (k, v) ∈ GoMap.entries m := by
  induction m with
  | nil => simp [GoMap.lookup] at hl
  | cons hd tl ih =>
    obtain ⟨k', v'⟩ := hd
    by_cases h : k' = k
    · subst h
      simp only [GoMap.lookup, if_true, Option.some.injEq] at hl
      subst hl
      exact List.mem_cons_self _ _
    · simp only [GoMap.lookup, h, if_false] at hl
      exact List.mem_cons_of_mem _ (ih hl)

theorem GoMap.mem_assign {β : Type} (m : GoMap β) (k : String) (v : β) (e : String × β)
    (he : e ∈ GoMap.entries (GoMap.assign m k v)) :
    e = (k, v) ∨ e ∈ GoMap.entries m := by
  induction m with
  | nil =>
    simp only [GoMap.entries, GoMap.assign, List.mem_singleton] at he
    exact Or.inl he
  | cons hd tl ih =>
    obtain ⟨k', v'⟩ := hd
    by_cases h : k' = k
    · simp only [GoMap.entries, GoMap.assign, h, if_true, List.mem_cons] at he
      rcases he with he | he
      · exact Or.inl he
      · exact Or.inr (List.mem_cons_of_mem _ he)
    · simp only [GoMap.entries, GoMap.assign, h, if_false, List.mem_cons] at he
      rcases he with he | he
      · exact Or.inr (he ▸ List.mem_cons_self _ _)
      · rcases ih he with h1 | h1
        · exact Or.inl h1
        · exact Or.inr (List.mem_cons_of_mem _ h1)

theorem GoMap.keys_assign_mem {β : Type} (m : GoMap β) (k : String) (v : β) (k2 : String)
    (hk : k2 ∈ GoMap.keys (GoMap.assign m k v)) : k2 = k ∨ k2 ∈ GoMap.keys m := by
  simp only [GoMap.keys, List.mem_map] at hk ⊢
  obtain ⟨e, he, rfl⟩ := hk
  rcases GoMap.mem_assign m k v e he with h1 | h1
  · exact Or.inl (by rw [h1])
  · exact Or.inr ⟨e, h1, rfl⟩

theorem GoMap.keys_assign_nodup {β : Type} (m : GoMap β) (k : String) (v : β)
    (hnd : (GoMap.keys m).Nodup) : (GoMap.keys (GoMap.assign m k v)).Nodup := by
  induction m with
  | nil => simp [GoMap.assign, GoMap.keys]
  | cons hd tl ih =>
    obtain ⟨k', v'⟩ := hd
    have hnd' : (GoMap.keys tl).Nodup := (List.nodup_cons.1 hnd).2
    have hnotin : k' ∉ GoMap.keys tl := (List.nodup_cons.1 hnd).1
    by_cases h : k' = k
    · subst h
      simpa [GoMap.assign, GoMap.keys] using hnd
    · have hcons : GoMap.keys (GoMap.assign ((k', v') :: tl) k v)
          = k' :: GoMap.keys (GoMap.assign tl k v) := by
        simp [GoMap.assign, GoMap.keys, h]
      rw [hcons]
      refine List.nodup_cons.2 ⟨?_, ih hnd'⟩
      intro hin
      rcases GoMap.keys_assign_mem tl k v k' hin with h1 | h1
      · exact h h1
      · exact hnotin h1

theorem GoMap.delete_sublist {β : Type} (m : GoMap β) (k : String) :
    List.Sublist (GoMap.entries (GoMap.delete m k)) (GoMap.entries m) := by
  induction m with
  | nil => exact List.Sublist.refl _
  | cons hd tl ih =>
    obtain ⟨k', v'⟩ := hd
    by_cases h : k' = k
    · simp only [GoMap.delete, h, if_true]
      exact List.Sublist.cons _ ih
    · simp only [GoMap.delete, h, if_false]
      exact List.Sublist.cons₂ _ ih

theorem StoreInv_assign (m : GoMap PluginItem) (k : String) (it : PluginItem)
    (hinv : StoreInv m) (hv : ValidEntry (k, it)) : StoreInv (GoMap.assign m k it) := by
  refine ⟨GoMap.keys_assign_nodup m k it hinv.1, ?_⟩
  intro e he
  rcases GoMap.mem_assign m k it e he with h1 | h1
  · rw [h1]
    exact hv
  · exact hinv.2 e h1

theorem StoreInv_delete (m : GoMap PluginItem) (k : String) (hinv : StoreInv m) :
    StoreInv (GoMap.delete m k) := by
  have hs := GoMap.delete_sublist m k
  refine ⟨?_, fun e he => hinv.2 e (hs.subset he)⟩
  exact List.Nodup.sublist (List.Sublist.map Prod.fst hs) hinv.1

theorem StoreInv_Put (bs : BaseStore) (item : Option PluginItem) (forced : Bool)
    (hinv : StoreInv bs.hash) : StoreInv (bs.Put item forced).hash := by
  cases item with
  | none => exact hinv
  | some it =>
    rcases hS : it.Spec with _ | sp
    · simpa [BaseStore.Put, hS] using hinv
    · rcases hE : it.Executor with _ | ex
      · simpa [BaseStore.Put, hS, hE] using hinv
      · by_cases hn : sp.Name = ""
        · have : bs.Put (some it) forced = bs := by
            simp [BaseStore.Put, hS, hE, hn]
          rw [this]
          exact hinv
        · rw [BaseStore.Put_valid bs it sp ex forced hS hE hn]
          split_ifs
          · exact StoreInv_assign _ _ _ hinv ⟨hn, sp, ex, hS, hE, rfl⟩
          · exact hinv

theorem StoreInv_Remove (bs : BaseStore) (name : String) (hinv : StoreInv bs.hash) :
    StoreInv (bs.Remove name).2.hash := by
  unfold BaseStore.Remove
  cases bs.hash.lookup name with
  | none => exact hinv
  | some item => exact StoreInv_delete _ _ hinv

theorem StoreInv_calls (cs : List StoreCall) (bs : BaseStore) (hinv : StoreInv bs.hash) :
    StoreInv (bs.calls cs).hash := by
  induction cs generalizing bs with
  | nil => exact hinv
  | cons c rest ih =>
    simp only [BaseStore.calls]
    apply ih
    cases c with
    | Put item forced => exact StoreInv_Put bs item forced hinv
    | Remove name => exact StoreInv_Remove bs name hinv

theorem GoMap.lookup_of_mem_keys {β : Type} (m : GoMap β) (k : String)
    (hk : k ∈ GoMap.keys m) : ∃ v, GoMap.lookup m k = some v := by
  induction m with
  | nil => simp [GoMap.keys] at hk
  | cons hd tl ih =>
    obtain ⟨k', v'⟩ := hd
    by_cases h : k' = k
    · exact ⟨v', by simp [GoMap.lookup, h]⟩
    · have hk' : k ∈ GoMap.keys tl := by
        simp only [GoMap.keys, List.map_cons, List.mem_cons] at hk
        rcases hk with hk | hk
        · exact absurd hk.symm h
        · exact hk
      obtain ⟨v, hv⟩ := ih hk'
      exact ⟨v, by simp [GoMap.lookup, h, hv]⟩

theorem StoreInv_NewBaseStore : StoreInv NewBaseStore.hash := by
  refine ⟨?_, ?_⟩
  · simp [NewBaseStore, GoMap.empty, GoMap.keys]
  · intro e he
    simp [NewBaseStore, GoMap.empty, GoMap.entries] at he

theorem StoreInv_lookup (m : GoMap PluginItem) (hinv : StoreInv m) (k : String)
    (item : PluginItem) (hl : GoMap.lookup m k = some item) :
    k ≠ "" ∧ ∃ sp ex, item.Spec = some sp ∧ item.Executor = some ex ∧ sp.Name = k :=
  hinv.2 (k, item) (GoMap.mem_of_lookup m k item hl)

/-! ## The claims -/

/-- C1. Sequential `Put` of a valid item (non-nil item, descriptor and executor, non-empty
name `n`): afterwards `Get(n)` returns the new item when `n` was absent or `forced` is true,
and the previously stored item when `n` was present and `forced` is false; every other key
maps to what it mapped to before. -/
theorem C1_put_then_get (bs : BaseStore) (item : PluginItem) (sp : Plugin)
    (ex : PluginExecutor) (forced : Bool) (hSpec : item.Spec = some sp)
    (hExec : item.Executor = some ex) (hName : sp.Name ≠ "") :
    (bs.Put (some item) forced).Get sp.Name =
        (if (bs.Get sp.Name).2 = false ∨ forced = true then (some item, true)
         else bs.Get sp.Name)
      ∧ ∀ k : String, k ≠ sp.Name → (bs.Put (some item) forced).Get k = bs.Get k := by
  rw [BaseStore.Put_valid bs item sp ex forced hSpec hExec hName]
  simp only [BaseStore.Get_eq]
  by_cases hc : (bs.hash.lookup sp.Name).isSome = false ∨ forced = true
  · simp only [hc, if_true]
    refine ⟨?_, ?_⟩
    · simp [GoMap.lookup_assign_self]
    · intro k hk
      simp [GoMap.lookup_assign_other _ _ _ _ hk]
  · simp only [hc, if_false]
    exact ⟨trivial, fun _ _ => trivial⟩

/-- Witness of C1 on `sampleStore`: a non-forced `Put` of a second item named `sample`. -/
theorem C1_put_then_get_witness :
    (sampleStore.Put (some sampleItem2) false).Get "sample" = (some sampleItem, true)
      ∧ (sampleStore.Put (some sampleItem2) true).Get "sample" = (some sampleItem2, true)
      ∧ (sampleStore.Put (some sampleItem2) true).Get "other" = (some otherItem, true) := by
  have h1 := C1_put_then_get sampleStore sampleItem2 samplePlugin2 ⟨2⟩ false rfl rfl (by decide)
  have h2 := C1_put_then_get sampleStore sampleItem2 samplePlugin2 ⟨2⟩ true rfl rfl (by decide)
  refine ⟨?_, ?_, ?_⟩
  · exact h1.1.trans (by decide)
  · exact h2.1.trans (by decide)
  · exact (h2.2 "other" (by decide)).trans (by decide)

/-- C2. `Put` leaves the store unchanged (same map, same `Size`, same answer of `Get` for
every key) when the item is nil, its descriptor is nil, its executor is nil, or the
descriptor name is empty, whatever `forced` is. -/
theorem C2_put_invalid_is_noop (bs : BaseStore) (item : Option PluginItem) (forced : Bool)
    (h : item = none ∨ ∃ it, item = some it ∧
      (it.Spec = none ∨ it.Executor = none ∨ ∃ sp, it.Spec = some sp ∧ sp.Name = "")) :
    bs.Put item forced = bs
      ∧ (bs.Put item forced).Size = bs.Size
      ∧ ∀ k : String, (bs.Put item forced).Get k = bs.Get k := by
  have key : bs.Put item forced = bs := by
    rcases h with rfl | ⟨⟨s, e⟩, rfl, h⟩
    · rfl
    · cases s with
      | none => rfl
      | some sp0 =>
        cases e with
        | none => rfl
        | some e0 =>
          rcases h with h | h | ⟨sp, h, hn⟩
          · cases h
          · cases h
          · have hsp : sp0 = sp := by simpa using h
            subst hsp
            simp [BaseStore.Put, hn]
  rw [key]
  exact ⟨rfl, rfl, fun _ => rfl⟩

/-- Witness of C2 on `sampleStore` with an item whose descriptor has an empty name. -/
theorem C2_put_invalid_is_noop_witness :
    (sampleStore.Put (some ⟨some namelessPlugin, some ⟨9⟩⟩) true = sampleStore
      ∧ (sampleStore.Put (some ⟨some namelessPlugin, some ⟨9⟩⟩) true).Size = sampleStore.Size
      ∧ ∀ k : String,
          (sampleStore.Put (some ⟨some namelessPlugin, some ⟨9⟩⟩) true).Get k
            = sampleStore.Get k) :=
  C2_put_invalid_is_noop sampleStore (some ⟨some namelessPlugin, some ⟨9⟩⟩) true
    (Or.inr ⟨_, rfl, Or.inr (Or.inr ⟨namelessPlugin, rfl, rfl⟩)⟩)

/-- C3. Code evaluation at the failing schedule. Two goroutines call `Put` with
`forced = false` for the same key on an empty store. Both perform the unlocked read before
either takes the lock; goroutine 0 then locks, writes `sampleItem` and returns, and
goroutine 1 locks and overwrites the key with `sampleItem2`. The presence check is not part
of the critical section: goroutine 1 can also perform its read while goroutine 0 holds the
exclusive lock and is about to write. When goroutine 0 runs to its end before goroutine 1
starts, goroutine 1 finds the key and returns without writing. -/
theorem C3_put_check_outside_lock :
    (PutRun.exec [0, 1, 0, 0, 0] raceStart).map
        (fun r => (r.hash.lookup "sample", r.calls.map PutCall.pc))
      = some (some sampleItem, [PutPC.returned, PutPC.beforeLock])
    ∧ (PutRun.exec [0, 1, 0, 0, 0, 1, 1, 1] raceStart).map
        (fun r => (r.hash.lookup "sample", r.calls.map PutCall.pc))
      = some (some sampleItem2, [PutPC.returned, PutPC.returned])
    ∧ (PutRun.exec [0, 0, 1] raceStart).map (fun r => (r.lock, r.calls.map PutCall.pc))
      = some (some 0, [PutPC.beforeWrite, PutPC.beforeLock])
    ∧ (PutRun.exec [0, 0, 0, 0, 1] raceStart).map
        (fun r => (r.hash.lookup "sample", r.calls.map PutCall.pc))
      = some (some sampleItem, [PutPC.returned, PutPC.returned]) := by
  decide

/-- C4. `GetPlugin(name)` returns, with the state unchanged. It returns an error exactly when
`name` is empty or no item is stored under `name`, and then the descriptor and the executor
are nil; otherwise the error is nil and the descriptor and executor are those of the item
stored under `name`. -/
theorem C4_get_plugin {σ : Type} (s : Sys σ) (name : String) :
    ∃ r, BaseManager.GetPlugin s name = some (r, s)
      ∧ (r.2.2 ≠ none ↔ (name = "" ∨ s.bm.store.hash.lookup name = none))
      ∧ (r.2.2 ≠ none → r.1 = none ∧ r.2.1 = none)
      ∧ (r.2.2 = none → ∃ item, s.bm.store.hash.lookup name = some item
            ∧ r.1 = item.Spec ∧ r.2.1 = item.Executor) := by
  unfold BaseManager.GetPlugin
  by_cases hn : name = ""
  · subst hn
    exact ⟨(none, none, some ⟨"plugin name cannot be empty"⟩), rfl, by simp, by simp, by simp⟩
  · have hlen : ¬ name.length = 0 := fun h => hn ((String.length_zero_iff _).1 h)
    simp only [hlen, if_false, BaseStore.Get_eq]
    cases hl : s.bm.store.hash.lookup name with
    | none => exact ⟨_, rfl, by simp, by simp, by simp⟩
    | some item => exact ⟨_, rfl, by simp [hn], by simp, by simp⟩

/-- C5. `UnloadPlugin(name)` returns an error and leaves the state unchanged when `name` is
empty or not in the registry. When `name` is present it returns nil, the key is removed,
every other key keeps its item, and `GetPlugin(name)` afterwards returns an error. -/
theorem C5_unload_plugin {σ : Type} (s : Sys σ) (name : String) :
    ((name = "" ∨ s.bm.store.hash.lookup name = none) →
        ∃ e, BaseManager.UnloadPlugin s name = (some e, s))
      ∧ ((name ≠ "" ∧ s.bm.store.hash.lookup name ≠ none) →
          ∃ s1, BaseManager.UnloadPlugin s name = (none, s1)
            ∧ s1.bm.store.Get name = (none, false)
            ∧ (∀ k : String, k ≠ name → s1.bm.store.Get k = s.bm.store.Get k)
            ∧ s1.world = s.world
            ∧ ∃ e, BaseManager.GetPlugin s1 name = some ((none, none, some e), s1)) := by
  unfold BaseManager.UnloadPlugin
  by_cases hn : name = ""
  · subst hn
    exact ⟨fun _ => ⟨⟨"plugin name cannot be empty"⟩, rfl⟩, fun h => absurd rfl h.1⟩
  · have hlen : ¬ name.length = 0 := fun h => hn ((String.length_zero_iff _).1 h)
    simp only [hlen, if_false, BaseStore.Get_eq]
    cases hl : s.bm.store.hash.lookup name with
    | none => exact ⟨fun _ => ⟨_, rfl⟩, fun h => absurd rfl h.2⟩
    | some item =>
      refine ⟨fun h => ?_, fun _ => ?_⟩
      · rcases h with h | h
        · exact absurd h hn
        · cases h
      · have hrem : s.bm.store.Remove name = ((some item, true), ⟨s.bm.store.hash.delete name⟩) := by
          simp [BaseStore.Remove, hl]
        simp only [Option.isSome_some, hrem]
        refine ⟨_, rfl, ?_, ?_, rfl, ?_⟩
        · simp [Sys.setStore, GoMap.lookup_delete_self]
        · intro k hk
          simp [Sys.setStore, GoMap.lookup_delete_other _ _ _ hk]
        · refine ⟨⟨"plugin with name \x27" ++ name ++ "\x27 is not existing"⟩, ?_⟩
          simp [BaseManager.GetPlugin, hlen, BaseStore.Get_eq, Sys.setStore,
            GoMap.lookup_delete_self]

/-- C9. The chain fails fast. When the validators before position `k` (the list `pre`) all
return without error, handing on result `r`, and validator `k` returns error `e` on the
arguments it is given, `BaseValidatorChain.Validate` returns `(nil, e)` in the world validator
`k` left, and the validators called are exactly those at positions `0, ..., k`: none after
position `k` is invoked. -/
theorem C9_chain_fails_fast {σ : Type} (pre post : List (Validator σ)) (v : Validator σ)
    (params : List Value) (w w1 w2 : σ) (r x : Value) (e : GoError)
    (hparams : params ≠ [])
    (hpre : BaseValidatorChain.loop params pre Value.nil w = ((r, none), w1))
    (hv : v.Validate (BaseValidatorChain.stageArgs r params) w1 = ((x, some e), w2)) :
    BaseValidatorChain.Validate ⟨pre ++ v :: post⟩ params w = ((Value.nil, some e), w2)
      ∧ ∃ calls, BaseValidatorChain.Validate ⟨observedFrom 0 (pre ++ v :: post)⟩ params (w, [])
            = ((Value.nil, some e), (w2, calls))
          ∧ calls.map Prod.fst = List.range (pre.length + 1) := by
  have hp : ¬ params.length = 0 := fun h => hparams (List.length_eq_zero.1 h)
  constructor
  · unfold BaseValidatorChain.Validate
    have hl : ¬ (pre ++ v :: post).length = 0 := by simp
    simp only [hl, hp, if_false]
    rw [BaseValidatorChain.loop_append_of_success params pre (v :: post) _ r w w1 hpre]
    simp only [BaseValidatorChain.loop, hv]
  · obtain ⟨lg1, h1, _, h3⟩ := BaseValidatorChain.loop_observed params pre 0 Value.nil w []
    rw [hpre] at h1 h3
    simp only [List.nil_append] at h1
    refine ⟨lg1 ++ [(pre.length, BaseValidatorChain.stageArgs r params)], ?_, ?_⟩
    · unfold BaseValidatorChain.Validate
      have hl : ¬ (observedFrom 0 (pre ++ v :: post)).length = 0 := by
        simp [observedFrom_length]
      simp only [hl, hp, if_false]
      rw [observedFrom_append,
        BaseValidatorChain.loop_append_of_success params _ _ _ r (w, []) (w1, lg1) h1]
      simp only [observedFrom, BaseValidatorChain.loop, Validator.observed_validate, hv,
        Nat.zero_add]
    · rw [List.map_append, h3 rfl]
      simp [List.range_eq_range', List.range'_concat]

/-- Witness of C9: in the chain of `RemoteSourceValidator`, `SpecValidator` and
`LocalSourceValidator` run on a descriptor without a name, the first validator returns no
error, the second fails, and the third is not called. -/
theorem C9_chain_fails_fast_witness :
    BaseValidatorChain.Validate
        ⟨[Validator.ofReader RemoteSourceValidator.Validate] ++
          Validator.ofReader SpecValidator.Validate ::
            [Validator.ofReader LocalSourceValidator.Validate]⟩
        [Value.plugin namelessPlugin] sampleHost
      = ((Value.nil, some ⟨"missing plugin name"⟩), sampleHost)
    ∧ ∃ calls, BaseValidatorChain.Validate
          ⟨observedFrom 0 ([Validator.ofReader RemoteSourceValidator.Validate] ++
            Validator.ofReader SpecValidator.Validate ::
              [Validator.ofReader LocalSourceValidator.Validate])⟩
          [Value.plugin namelessPlugin] (sampleHost, [])
        = ((Value.nil, some ⟨"missing plugin name"⟩), (sampleHost, calls))
      ∧ calls.map Prod.fst
        = List.range ([Validator.ofReader RemoteSourceValidator.Validate].length + 1) :=
  C9_chain_fails_fast [Validator.ofReader RemoteSourceValidator.Validate] _
    (Validator.ofReader SpecValidator.Validate)
    [Value.plugin namelessPlugin] sampleHost sampleHost sampleHost Value.nil Value.nil
    ⟨"missing plugin name"⟩ (by simp) rfl rfl

/-- C10. Code evaluation at the failing input. In the chain of `RemoteSourceValidator`
followed by `SpecValidator`, run on the single argument `"/plugins/sample"`, the first stage
returns the nil result without error, and the second stage is then called with the original
argument list alone, as if it were the first validator; the nil result of the previous stage
is not put in front of it. -/
theorem C10_nil_result_not_threaded :
    (BaseValidatorChain.Validate
        ⟨observedFrom 0 [Validator.ofReader RemoteSourceValidator.Validate,
          Validator.ofReader SpecValidator.Validate]⟩
        [Value.str "/plugins/sample"] (sampleHost, [])).2.2
      = [(0, [Value.str "/plugins/sample"]), (1, [Value.str "/plugins/sample"])]
    ∧ (BaseValidatorChain.Validate
        ⟨observedFrom 0 [Validator.ofReader RemoteSourceValidator.Validate,
          Validator.ofReader SpecValidator.Validate]⟩
        [Value.str "/plugins/sample"] (sampleHost, [])).2.2
      ≠ [(0, [Value.str "/plugins/sample"]),
          (1, [Value.nil, Value.str "/plugins/sample"])] := by
  decide

/-- Witness of C5 on the default manager holding `sampleStore`: unloading `sample`. -/
theorem C5_unload_plugin_witness :
    ∃ s1, BaseManager.UnloadPlugin (defaultSys "/plugins" sampleStore sampleHost []) "sample"
          = (none, s1)
      ∧ s1.bm.store.Get "sample" = (none, false)
      ∧ (∀ k : String, k ≠ "sample" →
          s1.bm.store.Get k = (defaultSys "/plugins" sampleStore sampleHost []).bm.store.Get k)
      ∧ s1.world = (defaultSys "/plugins" sampleStore sampleHost []).world
      ∧ ∃ e, BaseManager.GetPlugin s1 "sample" = some ((none, none, some e), s1) :=
  (C5_unload_plugin (defaultSys "/plugins" sampleStore sampleHost []) "sample").2
    ⟨by decide, by decide⟩

/-- C6. `LoadPlugins` returns, and what it returns is the error result of `Scan`: an error
exactly when `Scan` fails, that same error, with the registry and the log as they were and no
call of the validator; and nil when `Scan` succeeds, however many candidates failed. After a
successful `Scan` the state is the one reached by running the loop body, `loadPlugin`
included, on every candidate `Scan` returned, in order, each from the state the one before
left; the validation lines of the log list these candidates in order; and the calls of
`Validate`, recorded by the observed manager, are exactly one call on each candidate path, in
order. This holds for every validator and every loader that returns from its calls
(`returningSys`), and for the manager of `NewBaseManager` on every host (`defaultSys`). -/
theorem C6_load_plugins :
    (∀ (σ : Type) (dir : String)
        (scan : String → σ → (List String × Option GoError) × σ)
        (parse : String → σ → (Option Plugin × Option GoError) × σ)
        (load : Option Plugin → σ → (Option PluginExecutor × Option GoError) × σ)
        (v : Validator σ) (st : BaseStore) (w : σ) (log : List LogEntry),
        ∃ s1, BaseManager.LoadPlugins (returningSys dir scan parse load v st w log)
              = some ((scan dir w).1.2, s1)
          ∧ ((scan dir w).1.2 ≠ none →
              s1 = returningSys dir scan parse load v st (scan dir w).2 log
              ∧ BaseManager.LoadPlugins (returningSys dir scan parse load v st w log).observed
                  = some ((scan dir w).1.2, s1.observedWith []))
          ∧ ((scan dir w).1.2 = none →
              ∃ s0, List.foldlM BaseManager.attempt
                      (returningSys dir scan parse load v st (scan dir w).2 log)
                      (scan dir w).1.1 = some s0
                ∧ s1 = (if (scan dir w).1.1.length = 0 then s0
                        else s0.printf (.pluginsLoaded s0.bm.store.Size))
                ∧ validatedPaths s1.log = validatedPaths log ++ (scan dir w).1.1
                ∧ BaseManager.LoadPlugins
                      (returningSys dir scan parse load v st w log).observed
                    = some (none, s1.observedWith
                        ((scan dir w).1.1.map (fun p => (0, [Value.str p]))))))
      ∧ (∀ (dir : String) (st : BaseStore) (h : Host) (log : List LogEntry),
        ∃ s1, BaseManager.LoadPlugins (defaultSys dir st h log)
              = some ((BaseLoader.Scan h dir).2, s1)
          ∧ ((BaseLoader.Scan h dir).2 ≠ none →
              s1 = defaultSys dir st h log
              ∧ BaseManager.LoadPlugins (defaultSys dir st h log).observed
                  = some ((BaseLoader.Scan h dir).2, s1.observedWith []))
          ∧ ((BaseLoader.Scan h dir).2 = none →
              ∃ s0, List.foldlM BaseManager.attempt (defaultSys dir st h log)
                      (BaseLoader.Scan h dir).1 = some s0
                ∧ s1 = (if (BaseLoader.Scan h dir).1.length = 0 then s0
                        else s0.printf (.pluginsLoaded s0.bm.store.Size))
                ∧ validatedPaths s1.log = validatedPaths log ++ (BaseLoader.Scan h dir).1
                ∧ BaseManager.LoadPlugins (defaultSys dir st h log).observed
                    = some (none, s1.observedWith
                        ((BaseLoader.Scan h dir).1.map (fun p => (0, [Value.str p])))))) := by
  constructor
  · intro σ dir scan parse load v st w log
    exact BaseManager.LoadPlugins_spec (returningSys dir scan parse load v st w log)
      (fun _ _ _ _ _ => by simp [returningSys])
  · intro dir st h log
    exact BaseManager.LoadPlugins_spec (defaultSys dir st h log)
      (defaultSys_load_returns dir st h log)

/-- Witness of C6 on the default manager over `twoDirHost`: `Scan` returns the candidates
`/plugins/broken`, which has no `plugin.json`, and `/plugins/sample`. The call returns nil,
the validator is called on both paths in order, and the second candidate is loaded although
the first failed. -/
theorem C6_load_plugins_witness :
    ∃ s1, BaseManager.LoadPlugins (defaultSys "/plugins" NewBaseStore twoDirHost [])
          = some (none, s1)
      ∧ validatedPaths s1.log = ["/plugins/broken", "/plugins/sample"]
      ∧ BaseManager.LoadPlugins (defaultSys "/plugins" NewBaseStore twoDirHost []).observed
          = some (none, s1.observedWith
              [(0, [Value.str "/plugins/broken"]), (0, [Value.str "/plugins/sample"])])
      ∧ s1.bm.store.Get "sample" = (some ⟨some loadedPlugin, some ⟨7⟩⟩, true) := by
  obtain ⟨s1, h1, _, h3⟩ := C6_load_plugins.2 "/plugins" NewBaseStore twoDirHost []
  obtain ⟨s0, hfold, hs1, hlog, hobs⟩ := h3 rfl
  refine ⟨s1, h1, hlog, hobs, ?_⟩
  have hs0 : s0.bm.store = ⟨[("sample", ⟨some loadedPlugin, some ⟨7⟩⟩)]⟩ := by
    have hval : List.foldlM BaseManager.attempt
        (defaultSys "/plugins" NewBaseStore twoDirHost []) (BaseLoader.Scan twoDirHost "/plugins").1
          = some (defaultSys "/plugins" ⟨[("sample", ⟨some loadedPlugin, some ⟨7⟩⟩)]⟩ twoDirHost
              [.foundPlugin "/plugins/broken", .validateFailed "/plugins/broken",
               .pluginLoadingError
                 ⟨"plugin.json is not found under plugin dir /plugins/broken"⟩,
               .foundPlugin "/plugins/sample", .validateSuccess "/plugins/sample",
               .loadSuccess "sample" "1.0.0"]) := rfl
    rw [hval] at hfold
    injection hfold with hfold
    rw [← hfold]
    rfl
  rw [hs1]
  have hlen : ¬ (BaseLoader.Scan twoDirHost "/plugins").1.length = 0 := by decide
  rw [if_neg hlen]
  simp only [Sys.printf, hs0]
  decide

/-- C7. `LoadPlugin(name)` with a non-empty name returns exactly the error `e` and leaves the
registry unchanged when the validator returns `e` for `Join(baseDir, name)`, and also when
the validator accepts a descriptor and `Load` returns `e` for it. -/
theorem C7_load_plugin_error {σ : Type} (Join : String → String → String) (s : Sys σ)
    (name : String) (e : GoError) (hname : name ≠ "")
    (h : (∃ res w1, s.bm.validtor.Validate [Value.str (Join s.bm.basePluginBaseDir name)] s.world
            = ((res, some e), w1))
        ∨ (∃ d w1 x w2,
            s.bm.validtor.Validate [Value.str (Join s.bm.basePluginBaseDir name)] s.world
              = ((Value.plugin d, none), w1)
            ∧ s.bm.loader.Load (some d) w1 = some ((x, some e), w2))) :
    ∃ s1, BaseManager.LoadPlugin Join s name = some (some e, s1)
      ∧ s1.bm.store = s.bm.store := by
  have hlen : ¬ name.length = 0 := fun h => hname ((String.length_zero_iff _).1 h)
  unfold BaseManager.LoadPlugin
  simp only [hlen, if_false]
  unfold BaseManager.loadPlugin
  rcases h with ⟨res, w1, hv⟩ | ⟨d, w1, x, w2, hv, hl⟩
  · rw [hv]
    exact ⟨_, rfl, rfl⟩
  · rw [hv]
    simp only [Sys.printf, Sys.setWorld, hl]
    exact ⟨_, rfl, rfl⟩

/-- Witness of C7 on the default manager: the metadata file has an empty `Name`, the chain
rejects it, and the registry stays as it was. -/
theorem C7_load_plugin_error_witness :
    ∃ s1, BaseManager.LoadPlugin namelessHost.Join
            (defaultSys "/plugins" sampleStore namelessHost []) "x"
          = some (some ⟨"missing plugin name"⟩, s1)
      ∧ s1.bm.store = (defaultSys "/plugins" sampleStore namelessHost []).bm.store :=
  C7_load_plugin_error namelessHost.Join (defaultSys "/plugins" sampleStore namelessHost [])
    "x" ⟨"missing plugin name"⟩ (by decide) (Or.inl ⟨Value.nil, namelessHost, rfl⟩)

/-- C8. On the manager wired by `NewBaseManager`, whatever the registry held: when
`LoadPlugin(name)` returns nil, the validator accepted a descriptor `d` and the loader
returned an entry point `x` for it, `GetPlugin(d.Name)` afterwards returns exactly `(d, x)`
with a nil error, and every other name maps to what it mapped to before. -/
theorem C8_load_then_get (dir : String) (st : BaseStore) (h : Host) (log : List LogEntry)
    (name : String) (s1 : Sys Host)
    (hret : BaseManager.LoadPlugin h.Join (defaultSys dir st h log) name = some (none, s1)) :
    ∃ d x,
      NewBaseManager.validtor.Validate [Value.str (h.Join dir name)] h
          = ((Value.plugin d, none), h)
      ∧ BaseLoader.Load h (some d) = some (some x, none)
      ∧ BaseManager.GetPlugin s1 d.Name = some ((some d, some x, none), s1)
      ∧ ∀ k : String, k ≠ d.Name → s1.bm.store.Get k = st.Get k := by
  unfold BaseManager.LoadPlugin at hret
  by_cases hlen : name.length = 0
  · simp [hlen] at hret
  · simp only [hlen, if_false] at hret
    obtain ⟨d, x, w1, w2, hv, hl, hst, _⟩ := BaseManager.loadPlugin_success _ _ _ hret
    obtain ⟨d1, src, hd, hname, _, _, hw⟩ := defaultChain_result _ _ _ _ hv
    have hwh : w1 = h := hw
    rw [hwh] at hv hl
    have hd1 : d1 = d := by
      injection hd with hd
      exact hd.symm
    subst hd1
    have hl1 : BaseLoader.Load h (some d1) = some (x, none) := by
      simp only [defaultSys, NewBaseManager, BaseLoader, Option.map_eq_some'] at hl
      obtain ⟨a, ha, hb⟩ := hl
      simp only [Prod.mk.injEq] at hb
      rw [ha, hb.1]
    obtain ⟨f, rfl⟩ := BaseLoader.Load_executor h d1 x hl1
    have hput := BaseStore.Get_after_Put st ⟨some d1, some f⟩ d1 f true rfl rfl hname
    have hst1 : s1.bm.store = st.Put (some ⟨some d1, some f⟩) true := hst
    refine ⟨d1, f, hv, hl1, ?_, ?_⟩
    · have hlen1 : ¬ d1.Name.length = 0 := fun hh => hname ((String.length_zero_iff _).1 hh)
      have hg : (st.Put (some ⟨some d1, some f⟩) true).Get d1.Name
          = (some ⟨some d1, some f⟩, true) := by
        rw [hput.1]
        simp
      simp only [BaseManager.GetPlugin, hlen1, if_false, hst1, hg]
    · intro k hk
      rw [hst1]
      exact hput.2 k hk

/-- Witness of C8: loading `sample` from `/plugins` on `sampleHost` replaces the item that
`sampleStore` held under that name. -/
theorem C8_load_then_get_witness :
    ∃ d x,
      NewBaseManager.validtor.Validate [Value.str (sampleHost.Join "/plugins" "sample")]
          sampleHost = ((Value.plugin d, none), sampleHost)
      ∧ BaseLoader.Load sampleHost (some d) = some (some x, none)
      ∧ BaseManager.GetPlugin loadedSys d.Name = some ((some d, some x, none), loadedSys)
      ∧ ∀ k : String, k ≠ d.Name → loadedSys.bm.store.Get k = sampleStore.Get k :=
  C8_load_then_get "/plugins" sampleStore sampleHost [] "sample" loadedSys rfl

/-- C11. `SpecValidator.Validate` on a descriptor `d` returns without error exactly when
`d.Name` is non-empty, `semver.NewVersion` accepts `d.Version`, `d.Source` is present and its
`Mode` is `local_so` or `remote_git`; on success the result is `d` itself, and on failure the
result is nil. -/
theorem C11_spec_validator (h : Host) (d : Plugin) (rest : List Value) :
    ((SpecValidator.Validate h (Value.plugin d :: rest)).2 = none ↔
        (d.Name ≠ "" ∧ h.NewVersion d.Version = none ∧ ∃ src, d.Source = some src
          ∧ (src.Mode = PluginSourceModeLocal ∨ src.Mode = PluginSourceModeRemote)))
      ∧ ((SpecValidator.Validate h (Value.plugin d :: rest)).2 = none →
          (SpecValidator.Validate h (Value.plugin d :: rest)).1 = Value.plugin d)
      ∧ ((SpecValidator.Validate h (Value.plugin d :: rest)).2 ≠ none →
          (SpecValidator.Validate h (Value.plugin d :: rest)).1 = Value.nil) := by
  by_cases hlen : d.Name.length = 0
  · have hn : d.Name = "" := (String.length_zero_iff _).1 hlen
    have hval : SpecValidator.Validate h (Value.plugin d :: rest)
        = (Value.nil, some ⟨"missing plugin name"⟩) := by
      simp [SpecValidator.Validate, hlen]
    rw [hval]
    simp [hn]
  · have hn : d.Name ≠ "" := fun e => hlen ((String.length_zero_iff _).2 e)
    cases hv : h.NewVersion d.Version with
    | some err =>
      have hval : SpecValidator.Validate h (Value.plugin d :: rest)
          = (Value.nil, some err) := by
        simp [SpecValidator.Validate, hlen, hv]
      rw [hval]
      simp
    | none =>
      cases hs : d.Source with
      | none =>
        have hval : SpecValidator.Validate h (Value.plugin d :: rest)
            = (Value.nil, some ⟨"plugin source missing"⟩) := by
          simp [SpecValidator.Validate, hlen, hv, hs]
        rw [hval]
        simp
      | some src =>
        by_cases hm : src.Mode ≠ PluginSourceModeLocal ∧ src.Mode ≠ PluginSourceModeRemote
        · have hval : SpecValidator.Validate h (Value.plugin d :: rest)
              = (Value.nil, some ⟨"Only support mode [" ++ PluginSourceModeLocal ++ ", "
                  ++ PluginSourceModeRemote ++ "]"⟩) := by
            simp only [SpecValidator.Validate, hlen, hv, hs, if_false]
            rw [if_pos hm]
          rw [hval]
          simp only [reduceCtorEq, ne_eq, not_false_eq_true, Option.some.injEq,
            exists_eq_left', false_iff, not_and, not_or, false_implies, true_and,
            forall_true_left, and_true]
          intro _
          exact hm
        · have hval : SpecValidator.Validate h (Value.plugin d :: rest)
              = (Value.plugin d, none) := by
            simp only [SpecValidator.Validate, hlen, hv, hs, if_false]
            rw [if_neg hm]
          have hm2 : src.Mode = PluginSourceModeLocal ∨ src.Mode = PluginSourceModeRemote := by
            by_contra hcon
            exact hm ⟨fun a => hcon (Or.inl a), fun a => hcon (Or.inr a)⟩
          rw [hval]
          simp [hn, hm2]

/-- C12. When `LocalSourceValidator.Validate(d, b)` succeeds on a descriptor `d` with a
`Source`, the result is a descriptor whose fields other than `Source.Path` are those of `d`;
its `Source.Path` is that of `d` when the mode is not `local_so`, and in mode `local_so` it is
the original path when that is absolute and `Join(b, Path)` when it is not. -/
theorem C12_local_source_path (h : Host) (d : Plugin) (src : Source) (b : String)
    (rest : List Value) (v : Value) (hsrc : d.Source = some src)
    (hok : LocalSourceValidator.Validate h (Value.plugin d :: Value.str b :: rest)
      = (v, none)) :
    ∃ d1 src1, v = Value.plugin d1 ∧ d1.Source = some src1
      ∧ d1.Name = d.Name ∧ d1.Version = d.Version ∧ d1.Description = d.Description
      ∧ d1.Home = d.Home ∧ d1.Maintainers = d.Maintainers ∧ d1.HTTPServices = d.HTTPServices
      ∧ src1.Mode = src.Mode
      ∧ (src.Mode ≠ PluginSourceModeLocal → src1.Path = src.Path)
      ∧ (src.Mode = PluginSourceModeLocal → h.IsAbs src.Path = true → src1.Path = src.Path)
      ∧ (src.Mode = PluginSourceModeLocal → h.IsAbs src.Path = false →
          src1.Path = h.Join b src.Path) := by
  obtain ⟨h1, h2⟩ :=
    LocalSourceValidator.result_eq_of_success h d src (Value.str b) rest v hsrc hok
  by_cases hm : src.Mode = PluginSourceModeLocal
  · obtain ⟨hv, _, _⟩ := h2 hm
    refine ⟨_, _, hv, rfl, rfl, rfl, rfl, rfl, rfl, rfl, rfl, ?_, ?_, ?_⟩
    · intro hne
      exact absurd hm hne
    · intro _ ha
      simp [ha]
    · intro _ ha
      simp [ha, sprintS]
  · refine ⟨d, src, h1 hm, hsrc, rfl, rfl, rfl, rfl, rfl, rfl, rfl, fun _ => rfl, ?_, ?_⟩
    · intro hl
      exact absurd hl hm
    · intro hl
      exact absurd hl hm

/-- Witness of C12: `samplePlugin` with the relative path `sample.so`, validated against the
directory `/plugins/sample` on `sampleHost`, comes back with the joined path. -/
theorem C12_local_source_path_witness :
    ∃ d1 src1, Value.plugin loadedPlugin = Value.plugin d1 ∧ d1.Source = some src1
      ∧ d1.Name = "sample" ∧ d1.Version = "1.0.0" ∧ src1.Mode = "local_so"
      ∧ src1.Path = "/plugins/sample/sample.so" := by
  obtain ⟨d1, src1, hv, hs, hn, hver, _, _, _, _, hmode, _, _, hrel⟩ :=
    C12_local_source_path sampleHost samplePlugin ⟨"local_so", "sample.so"⟩ "/plugins/sample"
      [] (Value.plugin loadedPlugin) rfl rfl
  exact ⟨d1, src1, hv, hs, hn, hver, hmode, (hrel rfl (by decide)).trans (by decide)⟩

/-- C13, counterexample. On `remoteHost` the metadata file of `/plugins/sample` describes a
plugin in mode `remote_git` with path `github.com/acme/sample.git`; the default chain accepts
the directory and returns the descriptor with that path, which is not absolute. -/
theorem C13_counterexample :
    (NewBaseManager.validtor.Validate [Value.str "/plugins/sample"] remoteHost).1
        = (Value.plugin remotePlugin, none)
      ∧ remotePlugin.Source = some ⟨"remote_git", "github.com/acme/sample.git"⟩
      ∧ remoteHost.IsAbs "github.com/acme/sample.git" = false := by
  decide

/-- C13, amended. When the default chain, run with the plugin directory path `p` as sole
argument, accepts the directory, the descriptor it returns has a `Source`; in a mode other
than `local_so` its `Source.Path` is the one read from the metadata file, and in mode
`local_so` its `Source.Path` is absolute provided `p` is absolute, `filepath.Join` of an
absolute directory being absolute. -/
theorem C13_source_path_after_chain (h : Host) (p : String) (d : Plugin) (h1 : Host)
    (hJoin : ∀ a q, h.IsAbs a = true → h.IsAbs (h.Join a q) = true)
    (hok : NewBaseManager.validtor.Validate [Value.str p] h = ((Value.plugin d, none), h1)) :
    ∃ d0 src0 src, JSONFileValidator.Validate h [Value.str p] = (Value.plugin d0, none)
      ∧ d0.Source = some src0 ∧ d.Source = some src ∧ src.Mode = src0.Mode
      ∧ (src0.Mode ≠ PluginSourceModeLocal → src.Path = src0.Path)
      ∧ (src0.Mode = PluginSourceModeLocal → h.IsAbs p = true → h.IsAbs src.Path = true) := by
  obtain ⟨d0, hJ, hS, hL, _⟩ := defaultChain_stages h p _ h1 hok
  obtain ⟨d2, rest2, src0, hargs, _, _, hsrc0, _⟩ :=
    SpecValidator.SpecValidator_success h _ _ hS
  have hd : d2 = d0 := by
    simp only [List.cons.injEq, Value.plugin.injEq] at hargs
    exact hargs.1.symm
  subst hd
  obtain ⟨hr, hl⟩ :=
    LocalSourceValidator.result_eq_of_success h d2 src0 (Value.str p) [] _ hsrc0 hL
  by_cases hm : src0.Mode = PluginSourceModeLocal
  · obtain ⟨hv, _, _⟩ := hl hm
    have hd : d = { d2 with Source := some { src0 with
        Path := if h.IsAbs src0.Path then src0.Path
                else h.Join (sprintS h (Value.str p)) src0.Path } } := by
      injection hv
    subst hd
    refine ⟨d2, src0, _, hJ, hsrc0, rfl, rfl, fun hne => absurd hm hne, ?_⟩
    intro _ hp
    by_cases ha : h.IsAbs src0.Path = true
    · simp [ha]
    · simp only [ha, if_false, sprintS, Bool.false_eq_true]
      exact hJoin p src0.Path hp
  · have hv := hr hm
    have hd : d = d2 := by
      injection hv
    subst hd
    exact ⟨d, src0, src0, hJ, hsrc0, hsrc0, rfl, fun _ => rfl, fun hl2 => absurd hl2 hm⟩

/-- Witness of C13 (amended): `/plugins/sample` on `sampleHost`. -/
theorem C13_source_path_after_chain_witness :
    ∃ d0 src0 src,
      JSONFileValidator.Validate sampleHost [Value.str "/plugins/sample"]
          = (Value.plugin d0, none)
      ∧ d0.Source = some src0 ∧ loadedPlugin.Source = some src ∧ src.Mode = src0.Mode
      ∧ (src0.Mode ≠ PluginSourceModeLocal → src.Path = src0.Path)
      ∧ (src0.Mode = PluginSourceModeLocal → sampleHost.IsAbs "/plugins/sample" = true →
          sampleHost.IsAbs src.Path = true) :=
  C13_source_path_after_chain sampleHost "/plugins/sample" loadedPlugin sampleHost
    sampleHost_join_abs rfl

/-- C14. For a descriptor in mode `local_so`, when the extension of the resolved path is not
`.so`, `LocalSourceValidator.Validate` returns the nil result and an error, whether or not
the resolved file exists, and the descriptor it was given is as before the call. -/
theorem C14_wrong_extension_rejected (h : Host) (d : Plugin) (src : Source) (p1 : Value)
    (rest : List Value) (hsrc : d.Source = some src)
    (hmode : src.Mode = PluginSourceModeLocal)
    (hext : h.Ext (if h.IsAbs src.Path then src.Path
      else h.Join (sprintS h p1) src.Path) ≠ ".so") :
    ∃ e, LocalSourceValidator.Validate h (Value.plugin d :: p1 :: rest) = (Value.nil, some e)
      ∧ LocalSourceValidator.validateInPlace h (Value.plugin d :: p1 :: rest)
          = ((Value.nil, some e), some d) := by
  have key : ∃ e, LocalSourceValidator.validateInPlace h (Value.plugin d :: p1 :: rest)
      = ((Value.nil, some e), some d) := by
    simp only [LocalSourceValidator.validateInPlace, hsrc]
    have hm : ¬ src.Mode ≠ PluginSourceModeLocal := fun hne => hne hmode
    rw [if_neg hm]
    generalize (if h.IsAbs src.Path then src.Path
      else h.Join (sprintS h p1) src.Path) = soPath at hext ⊢
    by_cases hex : FileExists h soPath = true
    · refine ⟨⟨d.Name ++ ".so file is missing"⟩, ?_⟩
      simp [hex, hext]
    · refine ⟨⟨"plugin so file " ++ soPath ++ " is not existing"⟩, ?_⟩
      simp [hex]
  obtain ⟨e, he⟩ := key
  refine ⟨e, ?_, he⟩
  rw [← LocalSourceValidator.validateInPlace_fst, he]

/-- Witness of C14: on `txtHost` the resolved file exists and has the extension `.txt`. -/
theorem C14_wrong_extension_rejected_witness :
    FileExists txtHost "/plugins/sample/sample.so" = true
      ∧ ∃ e, LocalSourceValidator.Validate txtHost
              [Value.plugin samplePlugin, Value.str "/plugins/sample"] = (Value.nil, some e)
          ∧ LocalSourceValidator.validateInPlace txtHost
              [Value.plugin samplePlugin, Value.str "/plugins/sample"]
            = ((Value.nil, some e), some samplePlugin) :=
  ⟨by decide,
    C14_wrong_extension_rejected txtHost samplePlugin ⟨"local_so", "sample.so"⟩
      (Value.str "/plugins/sample") [] rfl rfl (by decide)⟩

/-- C15. For an existing directory `p` whose `plugin.json` is read and parsed to `d`:
when the name `os.Stat` reports for the directory differs from `d.Name`,
`JSONFileValidator.Validate` returns the nil result and the name-conflict error, whose message
contains both names; when the two names are equal it returns `d`. -/
theorem C15_name_conflict (h : Host) (p : String) (rest : List Value) (fi fj : FileInfo)
    (data : String) (d : Plugin)
    (hdir : h.Stat p = .ok fi) (hisdir : fi.IsDir = true)
    (hjson : h.Stat (h.Join p PluginJSONFileName) = .ok fj)
    (hread : h.ReadFile (h.Join p PluginJSONFileName) = .ok data)
    (hparse : h.Unmarshal data = .ok d) :
    (fi.Name ≠ d.Name →
        JSONFileValidator.Validate h (Value.str p :: rest)
            = (Value.nil, some ⟨"Name conflicts: expect " ++ fi.Name ++ " but got "
                ++ d.Name ++ " in the metadata json file"⟩)
          ∧ fi.Name.data <:+: ("Name conflicts: expect " ++ fi.Name ++ " but got "
                ++ d.Name ++ " in the metadata json file").data
          ∧ d.Name.data <:+: ("Name conflicts: expect " ++ fi.Name ++ " but got "
                ++ d.Name ++ " in the metadata json file").data)
      ∧ (fi.Name = d.Name →
          JSONFileValidator.Validate h (Value.str p :: rest) = (Value.plugin d, none)) := by
  have hex : FileExists h p = true := by simp [FileExists, hdir]
  have hd : IsDir h p = true := by simp [IsDir, hdir, hisdir]
  have hexj : FileExists h (h.Join p PluginJSONFileName) = true := by simp [FileExists, hjson]
  constructor
  · intro hne
    refine ⟨?_, ?_, ?_⟩
    · simp [JSONFileValidator.Validate, sprintS, hex, hd, hexj, hread, hparse, hdir, hne]
    · refine ⟨"Name conflicts: expect ".data,
        (" but got " ++ d.Name ++ " in the metadata json file").data, ?_⟩
      simp [String.data_append, List.append_assoc]
    · refine ⟨("Name conflicts: expect " ++ fi.Name ++ " but got ").data,
        " in the metadata json file".data, ?_⟩
      simp [String.data_append, List.append_assoc]
  · intro heq
    simp [JSONFileValidator.Validate, sprintS, hex, hd, hexj, hread, hparse, hdir, heq]

/-- Witness of C15: on `renamedHost` the directory is named `renamed` and the metadata file
names the plugin `sample`. -/
theorem C15_name_conflict_witness :
    JSONFileValidator.Validate renamedHost [Value.str "/plugins/renamed"]
      = (Value.nil,
          some ⟨"Name conflicts: expect renamed but got sample in the metadata json file"⟩) :=
  ((C15_name_conflict renamedHost "/plugins/renamed" [] ⟨"renamed", true⟩ ⟨"renamed", true⟩
      "json" samplePlugin rfl rfl rfl rfl rfl).1 (by decide)).1.trans (by decide)

/-- C16. `BaseLoader.Scan(b)` returns an error when `b` is empty or does not exist; when `b`
is non-empty and exists and `ioutil.ReadDir` lists it, the result is `Join(b, name)` for the
entries that are directories, in the order of the listing, and no error. -/
theorem C16_scan (h : Host) (b : String) :
    ((b = "" ∨ FileExists h b = false) → ∃ e, BaseLoader.Scan h b = ([], some e))
      ∧ (b ≠ "" → FileExists h b = true → ∀ files, h.ReadDir b = .ok files →
          BaseLoader.Scan h b
            = ((files.filter (fun f => f.IsDir)).map (fun f => h.Join b f.Name), none)) := by
  constructor
  · intro hb
    by_cases hlen : b.length = 0
    · exact ⟨⟨"plugin base dir path is empty"⟩, by simp [BaseLoader.Scan, hlen]⟩
    · have hne : b ≠ "" := fun e => hlen ((String.length_zero_iff _).2 e)
      rcases hb with hb | hb
      · exact absurd hb hne
      · exact ⟨⟨"plugin base dir \x27" ++ b ++ "\x27 is not existing"⟩,
          by simp [BaseLoader.Scan, hlen, hb]⟩
  · intro hne hex files hfiles
    have hlen : ¬ b.length = 0 := fun e => hne ((String.length_zero_iff _).1 e)
    simp only [BaseLoader.Scan, hlen, if_false, hex, Bool.not_true, Bool.false_eq_true,
      hfiles, Prod.mk.injEq, and_true]
    clear hfiles
    induction files with
    | nil => rfl
    | cons f rest ih =>
      cases hf : f.IsDir <;> simp [List.filterMap_cons, List.filter_cons, hf, ih]

/-- Witness of C16: `/plugins` on `sampleHost` lists the directory `sample` and the file
`README`. -/
theorem C16_scan_witness :
    BaseLoader.Scan sampleHost "/plugins" = (["/plugins/sample"], none) :=
  ((C16_scan sampleHost "/plugins").2 (by decide) (by decide)
      [⟨"sample", true⟩, ⟨"README", false⟩] rfl).trans (by decide)

/-- C17. Code evaluation at the failing input. On `fileHost` the path `/plugins/README`
exists and is a regular file, not a directory; `SetPluginBaseDir` returns no error and
records it as the base directory. -/
theorem C17_regular_file_accepted :
    FileExists fileHost "/plugins/README" = true
      ∧ IsDir fileHost "/plugins/README" = false
      ∧ (BaseManager.SetPluginBaseDir (defaultSys "/plugins" sampleStore fileHost [])
          "/plugins/README").1 = none
      ∧ (BaseManager.SetPluginBaseDir (defaultSys "/plugins" sampleStore fileHost [])
          "/plugins/README").2.bm.basePluginBaseDir = "/plugins/README" := by
  decide

/-- C18, counterexample. For the descriptor `dockerPlugin`, valid but for its mode `docker`,
the error of `SpecValidator.Validate` is `Only support mode [local_so, remote_git]`; the
text `docker` does not occur in it. -/
theorem C18_counterexample :
    SpecValidator.Validate sampleHost [Value.plugin dockerPlugin]
        = (Value.nil, some ⟨"Only support mode [local_so, remote_git]"⟩)
      ∧ ¬ ("docker".data <:+: "Only support mode [local_so, remote_git]".data) := by
  decide

/-- C18, amended. For every descriptor with a non-empty name, an accepted version and a
`Source` whose mode is neither `local_so` nor `remote_git`, `SpecValidator.Validate` returns
the nil result and the error `Only support mode [local_so, remote_git]`, which names the two
supported modes whatever the mode of the descriptor. -/
theorem C18_unsupported_mode_error (h : Host) (d : Plugin) (src : Source) (rest : List Value)
    (hname : d.Name ≠ "") (hver : h.NewVersion d.Version = none) (hsrc : d.Source = some src)
    (hmode : src.Mode ≠ PluginSourceModeLocal ∧ src.Mode ≠ PluginSourceModeRemote) :
    SpecValidator.Validate h (Value.plugin d :: rest)
      = (Value.nil, some ⟨"Only support mode [local_so, remote_git]"⟩) := by
  have hlen : ¬ d.Name.length = 0 := fun e => hname ((String.length_zero_iff _).1 e)
  simp only [SpecValidator.Validate, hlen, hver, hsrc, if_false]
  rw [if_pos hmode]
  have : "Only support mode [" ++ PluginSourceModeLocal ++ ", " ++ PluginSourceModeRemote ++ "]"
      = "Only support mode [local_so, remote_git]" := by decide
  rw [this]

/-- Witness of C18 (amended): `dockerPlugin` on `sampleHost`. -/
theorem C18_unsupported_mode_error_witness :
    SpecValidator.Validate sampleHost [Value.plugin dockerPlugin]
      = (Value.nil, some ⟨"Only support mode [local_so, remote_git]"⟩) :=
  C18_unsupported_mode_error sampleHost dockerPlugin ⟨"docker", "acme/sample:latest"⟩ []
    (by decide) rfl rfl (by decide)

/-- C19. `SetValue(k, v)` on a plugin context, for every value `v`, the nil value included:
when `k` has a character that is not white space, `GetValue(k)` afterwards returns `v` and
`GetValue` of every other key returns what it returned before; when `k` is empty or all white
space, the context is unchanged. -/
theorem C19_set_value (bpc : BasePluginContext) (k : String) (v : Value) :
    ((∃ c ∈ k.data, IsSpace c = false) →
        (bpc.SetValue k v).GetValue k = v
          ∧ ∀ k2 : String, k2 ≠ k → (bpc.SetValue k v).GetValue k2 = bpc.GetValue k2)
      ∧ ((∀ c ∈ k.data, IsSpace c = true) → bpc.SetValue k v = bpc) := by
  constructor
  · intro hk
    have hpos : (TrimSpace k).length > 0 := (TrimSpace_length_pos_iff k).2 hk
    simp only [BasePluginContext.SetValue, hpos, if_true, BasePluginContext.GetValue]
    refine ⟨?_, ?_⟩
    · rw [GoMap.lookup_assign_self]
    · intro k2 hk2
      rw [GoMap.lookup_assign_other _ _ _ _ hk2]
  · intro hall
    have hnpos : ¬ (TrimSpace k).length > 0 := by
      rw [TrimSpace_length_pos_iff]
      rintro ⟨c, hc, hs⟩
      rw [hall c hc] at hs
      exact Bool.noConfusion hs
    simp only [BasePluginContext.SetValue, hnpos, if_false]

/-- Witness of C19 on the context of `Background`: the key `sample` is stored, and a key of
blanks and a tab is not. -/
theorem C19_set_value_witness :
    (Background.SetValue "sample" (Value.str "hello")).GetValue "sample" = Value.str "hello"
      ∧ Background.SetValue " \t " (Value.str "hello") = Background :=
  ⟨((C19_set_value Background "sample" (Value.str "hello")).1
      ⟨'s', by decide, by decide⟩).1,
    (C19_set_value Background " \t " (Value.str "hello")).2 (by decide)⟩

/-- C20. In every store reached from `NewBaseStore()` by a sequence of `Put` and `Remove`
calls: every key of the map is non-empty and maps to an item with a descriptor and an
executor, the descriptor being named as the key; no key occurs twice, so that `Size()` is the
number of distinct registered names; and when `GetPlugin(name)` on a manager holding that
store returns without error, the descriptor and the executor it returns are not nil and the
descriptor is named `name`. -/
theorem C20_store_invariant (cs : List StoreCall) :
    (∀ k ∈ (NewBaseStore.calls cs).hash.keys, k ≠ "" ∧
        ∃ item sp ex, (NewBaseStore.calls cs).hash.lookup k = some item
          ∧ item.Spec = some sp ∧ item.Executor = some ex ∧ sp.Name = k)
      ∧ (NewBaseStore.calls cs).hash.keys.Nodup
      ∧ (NewBaseStore.calls cs).Size = (NewBaseStore.calls cs).hash.keys.toFinset.card
      ∧ ∀ (σ : Type) (s s1 : Sys σ) (name : String) (d : Option Plugin)
          (x : Option PluginExecutor),
          s.bm.store = NewBaseStore.calls cs →
          BaseManager.GetPlugin s name = some ((d, x, none), s1) →
          ∃ sp ex, d = some sp ∧ x = some ex ∧ sp.Name = name := by
  have hinv : StoreInv (NewBaseStore.calls cs).hash :=
    StoreInv_calls cs NewBaseStore StoreInv_NewBaseStore
  refine ⟨?_, hinv.1, ?_, ?_⟩
  · intro k hk
    obtain ⟨item, hl⟩ := GoMap.lookup_of_mem_keys _ k hk
    obtain ⟨hne, sp, ex, h1, h2, h3⟩ := StoreInv_lookup _ hinv k item hl
    exact ⟨hne, item, sp, ex, hl, h1, h2, h3⟩
  · rw [List.toFinset_card_of_nodup hinv.1]
    simp [BaseStore.Size, GoMap.len, GoMap.keys]
  · intro σ s s1 name d x hst hget
    unfold BaseManager.GetPlugin at hget
    by_cases hlen : name.length = 0
    · simp [hlen] at hget
    · simp only [hlen, if_false, BaseStore.Get_eq] at hget
      cases hl : s.bm.store.hash.lookup name with
      | none =>
        rw [hl] at hget
        simp at hget
      | some item =>
        rw [hl] at hget
        simp only [Option.isSome_some, Option.some.injEq, Prod.mk.injEq, and_true] at hget
        rw [hst] at hl
        obtain ⟨_, sp, ex, h1, h2, h3⟩ := StoreInv_lookup _ hinv name item hl
        refine ⟨sp, ex, ?_, ?_, h3⟩
        · rw [← hget.1.1, h1]
        · rw [← hget.1.2, h2]

/-- An instance of C20: after `Put` of `sampleItem`, a forced `Put` of `sampleItem2`, `Put`
of `otherItem` and `Remove` of `other`, the store has one name. -/
theorem C20_store_invariant_witness :
    (NewBaseStore.calls
      [.Put (some sampleItem) false, .Put (some sampleItem2) true,
       .Put (some otherItem) false, .Remove "other"]).Size = 1 :=
  (C20_store_invariant
    [.Put (some sampleItem) false, .Put (some sampleItem2) true,
     .Put (some otherItem) false, .Remove "other"]).2.2.1.trans (by decide)

/-- C21. On every host and for every plugin directory path `p`: when the default chain of
`NewBaseManager` returns without error, its result is a descriptor with a non-empty `Name`,
a `Source` and a mode among `local_so` and `remote_git`, and `BaseLoader.Load` on it does not
hit a nil `Source`. Hence `loadPlugin` of the default manager always returns, and it never
writes the line that reports a failed conversion of the validation result. -/
theorem C21_default_chain_safe (dir : String) (st : BaseStore) (h : Host)
    (log : List LogEntry) (p : String) :
    (∀ v h1, NewBaseManager.validtor.Validate [Value.str p] h = ((v, none), h1) →
        ∃ d src, v = Value.plugin d ∧ d.Name ≠ "" ∧ d.Source = some src
          ∧ (src.Mode = PluginSourceModeLocal ∨ src.Mode = PluginSourceModeRemote)
          ∧ BaseLoader.Load h1 (some d) ≠ none)
      ∧ ∃ r s1, BaseManager.loadPlugin (defaultSys dir st h log) p = some (r, s1)
          ∧ (LogEntry.convertFailed ∈ s1.log → LogEntry.convertFailed ∈ log) := by
  have first : ∀ v h1, NewBaseManager.validtor.Validate [Value.str p] h = ((v, none), h1) →
      ∃ d src, v = Value.plugin d ∧ d.Name ≠ "" ∧ d.Source = some src
        ∧ (src.Mode = PluginSourceModeLocal ∨ src.Mode = PluginSourceModeRemote)
        ∧ BaseLoader.Load h1 (some d) ≠ none := by
    intro v h1 hok
    obtain ⟨d, src, hv, hname, hsrc, hmode, _⟩ := defaultChain_result h _ v h1 hok
    exact ⟨d, src, hv, hname, hsrc, hmode, BaseLoader.Load_of_source h1 d src hsrc⟩
  refine ⟨first, ?_⟩
  unfold BaseManager.loadPlugin
  rcases hv : (defaultSys dir st h log).bm.validtor.Validate [Value.str p]
    (defaultSys dir st h log).world with ⟨⟨res, err⟩, w1⟩
  cases err with
  | some e =>
    refine ⟨_, _, rfl, ?_⟩
    simp [Sys.printf, Sys.setWorld, defaultSys]
  | none =>
    obtain ⟨d, src, hres, _, _, _, hload⟩ := first res w1 hv
    subst hres
    simp only [Sys.printf, Sys.setWorld]
    have hl : (defaultSys dir st h log).bm.loader.Load (some d) w1
        = (BaseLoader.Load w1 (some d)).map (fun r => (r, w1)) := rfl
    rw [hl]
    rcases hb : BaseLoader.Load w1 (some d) with _ | ⟨x, err2⟩
    · exact absurd hb hload
    · cases err2 with
      | some e =>
        refine ⟨_, _, rfl, ?_⟩
        simp [defaultSys]
      | none =>
        refine ⟨_, _, rfl, ?_⟩
        simp [Sys.setStore, defaultSys]

/-- Witness of C21: the directory `/plugins/sample` on `sampleHost`. -/
theorem C21_default_chain_safe_witness :
    ∃ d src, Value.plugin loadedPlugin = Value.plugin d ∧ d.Name ≠ "" ∧ d.Source = some src
      ∧ (src.Mode = PluginSourceModeLocal ∨ src.Mode = PluginSourceModeRemote)
      ∧ BaseLoader.Load sampleHost (some d) ≠ none :=
  (C21_default_chain_safe "/plugins" sampleStore sampleHost [] "/plugins/sample").1
    (Value.plugin loadedPlugin) sampleHost rfl

end GoPlugin
